import Mathlib

/-!
Verification development for the incremental image-clustering application
(clustering engine with warm-start K-Means, representative selection with a
dedup threshold, freeze/unfreeze constraints, exclusion handling and the
re-cluster coordinator).

The definitions below are a shallow embedding of the JavaScript source:

* `js/clustering_engine.js` — `updateClusters`, `kMeans`,
  `initKMeansPlusPlus`, `selectClosestToCentroid`, `cosineDistance`,
  `cosineSimilarity`;
* the application orchestrator (`app.js`) — `handleExclude`,
  `handleRestore`, `refreshClusters`, `handleFreezeCluster`,
  `handleUnfreezeCluster`, `applyFrozenConstraints`.

Modelling conventions:

* JavaScript floating-point numbers are modelled by exact rationals `ℚ`.
  `Math.sqrt` is modelled by `ratSqrt`, which is exact whenever the argument
  has a perfect-square numerator and denominator; every concrete vector used
  in an example below is chosen from that fragment, so on those inputs the
  model computes exactly the comparisons the JavaScript code computes.
* `Math.random()` is modelled by an explicit stream of rationals passed as an
  extra argument, consumed in the same order as the source consumes
  `Math.random()` calls.
* `Array.prototype.sort` with a comparator is (per the ECMAScript spec) a
  stable sort; it is modelled by the stable insertion sort `stableSort`.
* JavaScript `Set`/`Map` objects are modelled by `Finset String` and by
  association lists in insertion order, matching `Map` iteration order.
* In-place mutation of arrays of numbers is modelled twice: a pure value
  model (used for functional claims) and an explicit heap model `Heap`
  (used for the frame claim about `previousCentroids`).
-/

set_option autoImplicit false
set_option maxRecDepth 100000

namespace ImageClustering

/-- An embedding record `{path, embedding}` as produced by the processing
manager and consumed by the clustering engine.  The `isReplacement` flag is
the presentation flag that `applyFrozenConstraints` writes onto members that
become representatives (absent/falsy on fresh records). -/
structure Member where
  path : String
  embedding : List ℚ
  isReplacement : Bool := false
  deriving DecidableEq

/-- Default member used for (unreachable) out-of-range array accesses. -/
def dfltMember : Member := { path := "", embedding := [] }

/-- A cluster object as built by `updateClusters` and decorated by the freeze
logic.  Fresh clusters from the engine have `isFrozen`/`driftCount`/
`movedFrom` unset (falsy), modelled by the defaults. -/
structure Cluster where
  id : Nat
  label : String
  centroid : List ℚ
  members : List Member
  representatives : List Member
  isFrozen : Bool := false
  driftCount : Int := 0
  movedFrom : Option Nat := none
  deriving DecidableEq

/-- Default cluster used for (unreachable) out-of-range array accesses. -/
def dfltCluster : Cluster :=
  { id := 0, label := "", centroid := [], members := [], representatives := [] }

/-- The result of one `updateClusters` pass: the sorted clusters plus the raw
(post-Lloyd, pre-sort) centroids retained for the next warm start. -/
structure ClusterSet where
  clusters : List Cluster
  centroids : List (List ℚ)
  deriving DecidableEq

/-! ### Stable sorting (model of `Array.prototype.sort`) -/

/-- Insert `x` into `l` before the first element `y` with `le x y`.  Used to
model the stable `Array.prototype.sort`. -/
def insertStable {α : Type} (le : α → α → Bool) (x : α) : List α → List α
  | [] => [x]
  | y :: ys => if le x y then x :: y :: ys else y :: insertStable le x ys

/-- Stable insertion sort: elements comparing equal keep their input order,
as guaranteed for `Array.prototype.sort` by the ECMAScript specification. -/
def stableSort {α : Type} (le : α → α → Bool) (l : List α) : List α :=
  l.foldr (insertStable le) []

/-! ### Cosine distance (`cosineSimilarity` / `cosineDistance`) -/

/-- Model of `Math.sqrt`, exact on rationals whose numerator and denominator
are perfect squares.  Every concrete vector in the examples below has
perfect-square magnitudes, so on those inputs the model agrees with the
source's floating-point computation on every comparison it performs. -/
def ratSqrt (q : ℚ) : ℚ := (Nat.sqrt q.num.toNat : ℚ) / (Nat.sqrt q.den : ℚ)

/-- `cosineSimilarity(vecA, vecB)` from `clustering_engine.js`: a single loop
bounded by `vecA.length` accumulates the dot product and both squared
magnitudes (reading `vecB` at the same indices), returns `0` if either
magnitude is zero.  Out-of-range reads of `vecB` (possible only when the
vectors have different lengths, which never happens on engine inputs) are
modelled as `0`. -/
def cosineSimilarity (vecA vecB : List ℚ) : ℚ :=
  let idx := List.range vecA.length
  let dot := (idx.map (fun i => vecA.getD i 0 * vecB.getD i 0)).sum
  let magA := (idx.map (fun i => vecA.getD i 0 * vecA.getD i 0)).sum
  let magB := (idx.map (fun i => vecB.getD i 0 * vecB.getD i 0)).sum
  if magA = 0 ∨ magB = 0 then 0
  else dot / (ratSqrt magA * ratSqrt magB)

/-- `cosineDistance = 1 - cosineSimilarity`. -/
def cosineDistance (vecA vecB : List ℚ) : ℚ := 1 - cosineSimilarity vecA vecB

/-! ### Representative selection (`selectClosestToCentroid`) -/

/-- The greedy dedup walk of `selectClosestToCentroid`: iterate over the
distance-sorted list, stop at `limit`, skip a candidate whose cosine distance
to some already accepted representative is `< threshold`, otherwise accept. -/
def greedyPick (limit : Nat) (threshold : ℚ) : List (Member × ℚ) → List Member → List Member
  | [], acc => acc
  | item :: rest, acc =>
    if limit ≤ acc.length then acc
    else if acc.any (fun rep => decide (cosineDistance item.1.embedding rep.embedding < threshold)) then
      greedyPick limit threshold rest acc
    else greedyPick limit threshold rest (acc ++ [item.1])

/-- `selectClosestToCentroid(members, centroid, limit, threshold)`: rank the
members by ascending cosine distance to the centroid (stable sort), then
greedily accept candidates whose distance to every accepted representative is
at least `threshold`, stopping at `limit`. -/
def selectClosestToCentroid (members : List Member) (centroid : List ℚ) (limit : Nat) (threshold : ℚ) : List Member :=
  if members = [] then []
  else
    let withDist := members.map (fun m => (m, cosineDistance m.embedding centroid))
    let sorted := stableSort (fun a b => decide (a.2 ≤ b.2)) withDist
    greedyPick limit threshold sorted []

/-! ### K-Means (`kMeans`, `initKMeansPlusPlus`, Lloyd's loop) -/

/-- Pop the next `Math.random()` value off the stream (streams are assumed
long enough; an exhausted stream yields `0`). -/
def nextRand : List ℚ → ℚ × List ℚ
  | [] => (0, [])
  | r :: rs => (r, rs)

/-- `Math.floor(r * n)` for a random draw `r` used as an index into a list of
length `n`. -/
def ratFloorIdx (r : ℚ) (n : Nat) : Nat := (⌊r * (n : ℚ)⌋).toNat

/-- The assignment inner loop of `kMeans`: the index `c < k` whose centroid
has minimal cosine distance to `v` (first minimum wins; `-1` when `k = 0`,
which on the JavaScript side leads to a crash and is unreachable for the
engine's inputs). -/
def bestCluster (k : Nat) (cents : List (List ℚ)) (v : List ℚ) : Int :=
  ((List.range k).foldl (fun st c =>
    let d := cosineDistance v (cents.getD c [])
    match st.2 with
    | none => ((c : Int), some d)
    | some m => if d < m then ((c : Int), some d) else st) ((-1 : Int), (none : Option ℚ))).1

/-- Minimum cosine distance from `v` to any already-chosen centroid (K-Means++
helper; `minD` starts at `Infinity`, modelled by `none`). -/
def minDistToCents (cents : List (List ℚ)) (v : List ℚ) : ℚ :=
  (cents.foldl (fun st c =>
    let d := cosineDistance v c
    match st with
    | none => some d
    | some m => if d < m then some d else st) (none : Option ℚ)).getD 0

/-- The cumulative-weight scan of K-Means++: first index at which the running
sum of `distsSq` reaches `target`. -/
def cumFind : List ℚ → ℚ → ℚ → Nat → Option Nat
  | [], _, _, _ => none
  | d :: rest, cum, target, i =>
    let cum2 := cum + d
    if target ≤ cum2 then some i else cumFind rest cum2 target (i + 1)

/-- `initKMeansPlusPlus(embeddings, k)`: random first centroid, then `k - 1`
draws weighted by squared minimum distance, with the last index as fallback
when the cumulative scan underflows. -/
def initKMeansPlusPlus (embs : List Member) (k : Nat) (rand : List ℚ) : List (List ℚ) × List ℚ :=
  let p0 := nextRand rand
  let firstIdx := ratFloorIdx p0.1 embs.length
  let c0 := (embs.getD firstIdx dfltMember).embedding
  (List.range (k - 1)).foldl (fun st _ =>
    let dists := embs.map (fun e => minDistToCents st.1 e.embedding)
    let distsSq := dists.map (fun d => d * d)
    let s := distsSq.sum
    let pr := nextRand st.2
    let target := pr.1 * s
    let idx := (cumFind distsSq 0 target 0).getD (distsSq.length - 1)
    (st.1 ++ [(embs.getD idx dfltMember).embedding], pr.2)) ([c0], p0.2)

/-- The centroid update step of Lloyd's iteration: per-dimension sum-then-
divide mean over the 512 hard-coded dimensions for non-empty clusters, and
re-seeding from a uniformly random record for orphan centroids. -/
def updateCentroids (embs : List Member) (k : Nat) (asg : List Int) (cents : List (List ℚ)) (rand : List ℚ) : List (List ℚ) × List ℚ :=
  (List.range k).foldl (fun st (c : Nat) =>
    let cnt := asg.countP (fun a => decide (a = (c : Int)))
    if 0 < cnt then
      let mean := (List.range 512).map (fun j =>
        (((asg.zip embs).filter (fun p => decide (p.1 = (c : Int)))).map
          (fun p => p.2.embedding.getD j 0)).sum / (cnt : ℚ))
      (st.1.set c mean, st.2)
    else
      let pr := nextRand st.2
      let idx := ratFloorIdx pr.1 embs.length
      (st.1.set c ((embs.getD idx dfltMember).embedding), pr.2)) (cents, rand)

/-- Lloyd's loop of `kMeans`: assignment step, exit when no assignment
changed, otherwise centroid update; at most 20 (`maxIter`) rounds. -/
def lloydLoop (embs : List Member) (k : Nat) : Nat → List (List ℚ) → List Int → List ℚ → List (List ℚ) × List Int × List ℚ
  | 0, cents, asg, rand => (cents, asg, rand)
  | fuel + 1, cents, asg, rand =>
    let newAsg := embs.map (fun e => bestCluster k cents e.embedding)
    if newAsg = asg then (cents, asg, rand)
    else
      let upd := updateCentroids embs k newAsg cents rand
      lloydLoop embs k fuel upd.1 newAsg upd.2

/-- `kMeans(embeddings, k, previousCentroids)`: warm start (value copy) when
the previous centroids exist and match `k`, K-Means++ cold start otherwise,
then Lloyd's loop.  The warm start's deep copy is the identity on values;
the aliasing it prevents is modelled separately by the heap embedding. -/
def kMeans (embeddings : List Member) (k : Nat) (previousCentroids : Option (List (List ℚ))) (rand : List ℚ) : List (List ℚ) × List Int × List ℚ :=
  let init : List (List ℚ) × List ℚ :=
    match previousCentroids with
    | some pcs => if pcs.length = k then (pcs, rand) else initKMeansPlusPlus embeddings k rand
    | none => initKMeansPlusPlus embeddings k rand
  lloydLoop embeddings k 20 init.1 (List.replicate embeddings.length (-1)) init.2

/-! ### `updateClusters` -/

/-- The `assignments.forEach` grouping step: push record `i` onto the members
of cluster `assignments[i]`.  A negative or out-of-range index (impossible
for `k ≥ 1`) would crash the JavaScript; it is modelled as a no-op. -/
def pushMembers (clusters : List Cluster) (embs : List Member) (asg : List Int) : List Cluster :=
  (asg.zip embs).foldl (fun cls p =>
    let i := p.1.toNat
    if 0 ≤ p.1 ∧ i < cls.length then
      cls.set i (let c := cls.getD i dfltCluster; { c with members := c.members ++ [p.2] })
    else cls) clusters

/-- Steps 2–5 of `updateClusters`: build cluster objects from the centroids,
group records by assignment, select representatives, sort by descending
member count and re-assign only the labels. -/
def postProcess (allEmbeddings : List Member) (dedupThreshold : ℚ) (centroids : List (List ℚ)) (assignments : List Int) : List Cluster :=
  let clusters := centroids.enum.map (fun p =>
    ({ id := p.1, label := "Cluster " ++ toString (p.1 + 1), centroid := p.2,
       members := [], representatives := [] } : Cluster))
  let clusters := pushMembers clusters allEmbeddings assignments
  let clusters := clusters.map (fun c =>
    { c with representatives := selectClosestToCentroid c.members c.centroid 16 dedupThreshold })
  let clusters := stableSort (fun a b => decide (b.members.length ≤ a.members.length)) clusters
  clusters.enum.map (fun p => { p.2 with label := "Cluster " ++ toString (p.1 + 1) })

/-- `updateClusters(allEmbeddings, k, dedupThreshold, previousCentroids)`:
empty input yields an empty `ClusterSet`; `k` is clamped to the record count;
K-Means runs, then the post-processing steps; the returned centroids are the
raw post-Lloyd centroids. -/
def updateClusters (allEmbeddings : List Member) (k : Nat) (dedupThreshold : ℚ) (previousCentroids : Option (List (List ℚ))) (rand : List ℚ) : ClusterSet :=
  if allEmbeddings = [] then ⟨[], []⟩
  else
    let k1 := if allEmbeddings.length < k then allEmbeddings.length else k
    let res := kMeans allEmbeddings k1 previousCentroids rand
    ⟨postProcess allEmbeddings dedupThreshold res.1 res.2.1, res.1⟩

/-! ### Freeze Manager (`frozenClusters`, `applyFrozenConstraints`) -/

/-- A `FrozenEntry` stored in the app's `frozenClusters` map: the 16 paths
currently displayed for the frozen group (`preferredPaths`), the immutable
set recorded at freeze time (`originalPaths`), and the index at freeze time
(`initialIndex`, kept for logging). -/
structure FrozenEntry where
  preferredPaths : Finset String
  originalPaths : Finset String
  initialIndex : Nat
  deriving DecidableEq

/-- A JavaScript `Map` in insertion order, keyed by current cluster index. -/
abbrev FrozenMap := List (Nat × FrozenEntry)

/-- `Map.prototype.get`. -/
def mapGet {β : Type} (k : Nat) : List (Nat × β) → Option β
  | [] => none
  | p :: rest => if p.1 = k then some p.2 else mapGet k rest

/-- `Map.prototype.set`: overwrite in place if the key exists, append
otherwise. -/
def mapSet {β : Type} (m : List (Nat × β)) (k : Nat) (v : β) : List (Nat × β) :=
  if (mapGet k m).isSome then m.map (fun p => if p.1 = k then (k, v) else p)
  else m ++ [(k, v)]

/-- `Map.prototype.delete`. -/
def mapDelete {β : Type} (m : List (Nat × β)) (k : Nat) : List (Nat × β) :=
  m.filter (fun p => decide (p.1 ≠ k))

/-- One candidate assignment `(oldIndex, targetIndex, matchCount)` produced
by the discovery phase of `applyFrozenConstraints` (the captured `frozenData`
travels with it). -/
structure Assign where
  oldIndex : Nat
  targetIndex : Nat
  matchCount : Nat
  frozenData : FrozenEntry
  deriving DecidableEq

/-- `matchCount` for one frozen entry against one new cluster: the number of
members whose path lies in the entry's `preferredPaths`. -/
def matchCountOf (e : FrozenEntry) (c : Cluster) : Nat :=
  (c.members.filter (fun m => decide (m.path ∈ e.preferredPaths))).length

/-- Discovery phase: for every frozen entry and every cluster of the new
pass, keep the pairing iff `matchCount ≥ 8`. -/
def discover (frozen : FrozenMap) (clusters : List Cluster) : List Assign :=
  frozen.flatMap (fun pe =>
    (List.range clusters.length).filterMap (fun i =>
      let mc := matchCountOf pe.2 (clusters.getD i dfltCluster)
      if 8 ≤ mc then some ⟨pe.1, i, mc, pe.2⟩ else none))

/-- `assignments.sort((a, b) => b.matchCount - a.matchCount)`: stable sort by
descending match count. -/
def sortAssigns (l : List Assign) : List Assign :=
  stableSort (fun a b => decide (b.matchCount ≤ a.matchCount)) l

/-- One step of the greedy assignment phase: accept the candidate iff
neither its `oldIndex` nor its `targetIndex` has been claimed. -/
def greedyStep (st : List (Nat × Assign) × List Nat) (a : Assign) : List (Nat × Assign) × List Nat :=
  if (mapGet a.oldIndex st.1).isSome then st
  else if a.targetIndex ∈ st.2 then st
  else (st.1 ++ [(a.oldIndex, a)], st.2 ++ [a.targetIndex])

/-- Greedy assignment phase: walk the sorted candidates accepting greedily.
Returns the resolved assignments (a map keyed by `oldIndex`, in acceptance
order) together with the claimed target indices. -/
def assignGreedy (l : List Assign) : List (Nat × Assign) × List Nat :=
  l.foldl greedyStep ([], [])

/-- The resolved assignments computed by `applyFrozenConstraints` for a given
frozen map and pass. -/
def resolvedAssignments (frozen : FrozenMap) (clusters : List Cluster) : List (Nat × Assign) :=
  (assignGreedy (sortAssigns (discover frozen clusters))).1

/-- `addRep`: push a member (with its `isReplacement` presentation flag) onto
the representative list unless 16 are already present. -/
def addRep (st : List Member) (m : Member) (isRepl : Bool) : List Member :=
  if st.length < 16 then st ++ [{ m with isReplacement := isRepl }] else st

/-- The "originals present" group: members whose path is in the immutable
`originalPaths` set. -/
def originalsPresent (c : Cluster) (e : FrozenEntry) : List Member :=
  c.members.filter (fun m => decide (m.path ∈ e.originalPaths))

/-- The "previous fillers present" group: members whose path is a currently
preferred path but not an original one. -/
def previousFillersPresent (c : Cluster) (e : FrozenEntry) : List Member :=
  c.members.filter (fun m => decide (m.path ∈ e.preferredPaths ∧ m.path ∉ e.originalPaths))

/-- Phase A of the enforcement rebuild: push every original present (flagged
as not-a-replacement), capped at 16 by `addRep`. -/
def repsPhaseA (c : Cluster) (e : FrozenEntry) : List Member :=
  (originalsPresent c e).foldl (fun st m => addRep st m false) []

/-- Phase B: when fewer than 16 so far, select previous fillers with the
§4.3.3 policy (limit = the remaining space) and push them as replacements. -/
def repsPhaseB (thr : ℚ) (c : Cluster) (e : FrozenEntry) : List Member :=
  if (repsPhaseA c e).length < 16 then
    (selectClosestToCentroid (previousFillersPresent c e) c.centroid
        (16 - (repsPhaseA c e).length) thr).foldl
      (fun st m => addRep st m true) (repsPhaseA c e)
  else repsPhaseA c e

/-- Phase C: when still fewer than 16, select new fillers from the members
whose path is not already used, again with the §4.3.3 policy. -/
def enforcedReps (thr : ℚ) (c : Cluster) (e : FrozenEntry) : List Member :=
  if (repsPhaseB thr c e).length < 16 then
    (selectClosestToCentroid
        (c.members.filter (fun m =>
          decide (m.path ∉ (repsPhaseB thr c e).map (fun r => r.path))))
        c.centroid (16 - (repsPhaseB thr c e).length) thr).foldl
      (fun st m => addRep st m true) (repsPhaseB thr c e)
  else repsPhaseB thr c e

/-- Enforcement for one accepted assignment: mark the cluster frozen, record
`movedFrom` when the index changed, compute `driftCount`, rebuild the
representatives from the three ranked groups (`repsPhaseA`, `repsPhaseB`,
`enforcedReps`) and sync the entry's `preferredPaths` to the final
representatives. -/
def enforcedCluster (thr : ℚ) (c : Cluster) (e : FrozenEntry) (oldIndex targetIndex : Nat) : Cluster × FrozenEntry :=
  ({ c with isFrozen := true,
            movedFrom := if targetIndex ≠ oldIndex then some oldIndex else c.movedFrom,
            driftCount := (e.originalPaths.card : Int) - ((originalsPresent c e).length : Int),
            representatives := enforcedReps thr c e },
   { e with preferredPaths := ((enforcedReps thr c e).map (fun r => r.path)).toFinset })

/-- One iteration of the enforcement fold of `applyFrozenConstraints`:
entries without a resolved assignment, and entries whose target cluster has
fewer than 16 members, are dropped (auto-unfrozen); otherwise the target
cluster is updated in place and the updated entry is stored in the new map
under the target index. -/
def enforceStep (thr : ℚ) (resolved : List (Nat × Assign)) (st : List Cluster × FrozenMap) (pe : Nat × FrozenEntry) : List Cluster × FrozenMap :=
  match mapGet pe.1 resolved with
  | none => st
  | some a =>
    let cluster := st.1.getD a.targetIndex dfltCluster
    if cluster.members.length < 16 then st
    else
      let r := enforcedCluster thr cluster pe.2 pe.1 a.targetIndex
      (st.1.set a.targetIndex r.1, st.2 ++ [(a.targetIndex, r.2)])

/-- The enforcement fold of `applyFrozenConstraints`: walk the old frozen map
in insertion order applying `enforceStep`. -/
def enforceAll (thr : ℚ) (frozen : FrozenMap) (resolved : List (Nat × Assign)) (clusters : List Cluster) : List Cluster × FrozenMap :=
  frozen.foldl (enforceStep thr resolved) (clusters, [])

/-- The new-map entry enforcement produces for one old entry, described
against the clusters of the pass as the engine returned them (each accepted
assignment touches a distinct target, so this matches the in-place fold). -/
def enforceEntry (thr : ℚ) (clusters : List Cluster) (resolved : List (Nat × Assign)) (pe : Nat × FrozenEntry) : Option (Nat × FrozenEntry) :=
  match mapGet pe.1 resolved with
  | none => none
  | some a =>
    if (clusters.getD a.targetIndex dfltCluster).members.length < 16 then none
    else some (a.targetIndex,
      (enforcedCluster thr (clusters.getD a.targetIndex dfltCluster) pe.2 pe.1 a.targetIndex).2)

/-- `applyFrozenConstraints(clusters)`: no-op on an empty frozen map;
otherwise discovery, descending-match stable sort, greedy claiming, and
enforcement; the frozen map is re-keyed by the new indices. -/
def applyFrozenConstraints (thr : ℚ) (frozen : FrozenMap) (clusters : List Cluster) : List Cluster × FrozenMap :=
  if frozen = [] then (clusters, frozen)
  else enforceAll thr frozen (resolvedAssignments frozen clusters) clusters

/-! ### Application orchestrator state (`app.js`) -/

/-- The manifest persisted with every exclusion/restore/flush. -/
structure Manifest where
  processedCount : Nat
  totalImagesFound : Nat
  excludedImages : List String
  deriving DecidableEq

/-- The orchestrator state relevant to exclusion, freezing and the
re-cluster queue.  `passesStarted` is a ghost counter of the number of
`postMessage` calls sent to the clustering worker (i.e. clustering passes
started); it lets the coalescing contract be stated observably. -/
structure AppState where
  currentEmbeddings : List Member
  currentClusters : List Cluster
  lastCentroids : Option (List (List ℚ))
  excludedPaths : Finset String
  k : Nat
  threshold : ℚ
  frozenClusters : FrozenMap
  isClustering : Bool
  pendingRecluster : Bool
  manifest : Manifest
  passesStarted : Nat
  deriving DecidableEq

/-- The records fed to the clustering worker: embeddings whose path is not
excluded. -/
def validEmbeddings (s : AppState) : List Member :=
  s.currentEmbeddings.filter (fun e => decide (e.path ∉ s.excludedPaths))

/-- `refreshClusters()`: if a pass is in flight, set `pendingRecluster` and
return; if there is no valid data, return; otherwise start a pass (post a
message to the clustering worker). -/
def refreshClusters (s : AppState) : AppState :=
  if s.isClustering then { s with pendingRecluster := true }
  else if validEmbeddings s = [] then s
  else { s with isClustering := true, passesStarted := s.passesStarted + 1 }

/-- Result of an exclusion request. -/
inductive ExcludeResult where
  | success
  | frozenRepresentative
  deriving DecidableEq

/-- The manifest written by `handleExclude` / `handleRestore`. -/
def manifestOf (s : AppState) : Manifest :=
  { processedCount := s.currentEmbeddings.length,
    totalImagesFound := s.manifest.totalImagesFound,
    excludedImages := s.excludedPaths.sort (· ≤ ·) }

/-- `handleExclude(path)`: reject (state untouched) when the path is a
current representative of a frozen cluster; otherwise add the path to the
exclusion set, persist the manifest, and trigger `refreshClusters`. -/
def handleExclude (s : AppState) (path : String) : AppState × ExcludeResult :=
  if s.currentClusters.any (fun c =>
      c.isFrozen && c.representatives.any (fun r => decide (r.path = path))) then
    (s, ExcludeResult.frozenRepresentative)
  else
    let s1 := { s with excludedPaths := insert path s.excludedPaths }
    let s2 := { s1 with manifest := manifestOf s1 }
    (refreshClusters s2, ExcludeResult.success)

/-- `handleRestore(path)`: remove the path from the exclusion set, persist
the manifest, and trigger `refreshClusters`. -/
def handleRestore (s : AppState) (path : String) : AppState :=
  let s1 := { s with excludedPaths := s.excludedPaths.erase path }
  let s2 := { s1 with manifest := manifestOf s1 }
  refreshClusters s2

/-- Completion handler for a successful clustering pass (the worker
`onmessage` success branch): clear `isClustering`, apply the frozen
constraints when the frozen map is non-empty, publish clusters and retain
the raw centroids, and when `pendingRecluster` was set clear it and issue
exactly one follow-up `refreshClusters`. -/
def handleClusterResult (s : AppState) (result : ClusterSet) : AppState :=
  let s1 := { s with isClustering := false }
  let applied :=
    if s1.frozenClusters ≠ [] then applyFrozenConstraints s1.threshold s1.frozenClusters result.clusters
    else (result.clusters, s1.frozenClusters)
  let s2 := { s1 with currentClusters := applied.1, frozenClusters := applied.2,
                      lastCentroids := some result.centroids }
  if s2.pendingRecluster then refreshClusters { s2 with pendingRecluster := false }
  else s2

/-- `handleFreezeCluster(clusterIndex)`: reject when the cluster has fewer
than 16 representatives; otherwise record a `FrozenEntry` whose
`preferredPaths` and `originalPaths` are both the current 16 representative
paths, and mark the cluster frozen with `driftCount = 0`. -/
def handleFreezeCluster (s : AppState) (clusterIndex : Nat) : AppState :=
  match s.currentClusters.get? clusterIndex with
  | none => s
  | some cluster =>
    if cluster.representatives.length < 16 then s
    else
      let paths := (cluster.representatives.map (fun r => r.path)).toFinset
      { s with
        frozenClusters := mapSet s.frozenClusters clusterIndex
          { preferredPaths := paths, originalPaths := paths, initialIndex := clusterIndex },
        currentClusters := s.currentClusters.set clusterIndex
          { cluster with isFrozen := true, driftCount := 0 } }

/-- The cluster rewrite performed by `handleUnfreezeCluster`: clear the
frozen flag and recompute the representatives with §4.3.3 against the
current members (when there are any). -/
def unfrozenCluster (thr : ℚ) (cluster : Cluster) : Cluster :=
  let c1 := { cluster with isFrozen := false }
  if c1.members ≠ [] then
    { c1 with representatives := selectClosestToCentroid c1.members c1.centroid 16 thr }
  else c1

/-- `handleUnfreezeCluster(clusterIndex)`: drop the entry and immediately
recompute the cluster's representatives with §4.3.3 against the current
members (no re-clustering). -/
def handleUnfreezeCluster (s : AppState) (clusterIndex : Nat) : AppState :=
  if (mapGet clusterIndex s.frozenClusters).isSome then
    let s1 := { s with frozenClusters := mapDelete s.frozenClusters clusterIndex }
    match s1.currentClusters.get? clusterIndex with
    | none => s1
    | some cluster =>
      { s1 with currentClusters := s1.currentClusters.set clusterIndex (unfrozenCluster s1.threshold cluster) }
  else s

/-! ### Heap model of `kMeans` (for the frame property on `previousCentroids`)

The value model above cannot talk about aliasing, so the questions "does
`kMeans` mutate the `previousCentroids` arrays?" is re-asked against an
explicit store: number arrays live in a `Heap`, records and centroid lists
hold references (indices) into it.  `[...c]` spreads are allocations,
`centroids[c][j] = …` writes are `writeVec` on the centroid's reference, and
`centroids[c] = [...]` re-seeds rebind the (local) centroid list entry to a
fresh allocation. -/

/-- The store of JavaScript number arrays; a reference is an index. -/
abbrev Heap := List (List ℚ)

/-- Read the array behind a reference (a dangling reference reads `[]`). -/
def readVec (h : Heap) (r : Nat) : List ℚ := h.getD r []

/-- Allocate a fresh array, returning the extended heap and its reference. -/
def allocVec (h : Heap) (v : List ℚ) : Heap × Nat := (h ++ [v], h.length)

/-- Overwrite the array behind a reference. -/
def writeVec (h : Heap) (r : Nat) (v : List ℚ) : Heap := h.set r v

/-- An embedding record in the heap model: the vector lives behind `ref`. -/
structure EmbRef where
  path : String
  ref : Nat
  deriving DecidableEq

/-- Assignment inner loop of `kMeans` against the heap. -/
def bestClusterH (h : Heap) (k : Nat) (crefs : List Nat) (v : List ℚ) : Int :=
  ((List.range k).foldl (fun st c =>
    let d := cosineDistance v (readVec h (crefs.getD c 0))
    match st.2 with
    | none => ((c : Int), some d)
    | some m => if d < m then ((c : Int), some d) else st) ((-1 : Int), (none : Option ℚ))).1

/-- K-Means++ helper against the heap (allocations only, no writes). -/
def minDistToCentsH (h : Heap) (crefs : List Nat) (v : List ℚ) : ℚ :=
  (crefs.foldl (fun st cr =>
    let d := cosineDistance v (readVec h cr)
    match st with
    | none => some d
    | some m => if d < m then some d else st) (none : Option ℚ)).getD 0

/-- `initKMeansPlusPlus` against the heap: every chosen centroid is a fresh
copy (`[...embedding]`) of a record's vector. -/
def initKMeansPlusPlusH (h : Heap) (embs : List EmbRef) (k : Nat) (rand : List ℚ) : Heap × List Nat × List ℚ :=
  let p0 := nextRand rand
  let firstIdx := ratFloorIdx p0.1 embs.length
  let a0 := allocVec h (readVec h ((embs.getD firstIdx ⟨"", 0⟩).ref))
  (List.range (k - 1)).foldl (fun st _ =>
    let h1 := st.1
    let crefs := st.2.1
    let dists := embs.map (fun e => minDistToCentsH h1 crefs (readVec h1 e.ref))
    let distsSq := dists.map (fun d => d * d)
    let s := distsSq.sum
    let pr := nextRand st.2.2
    let target := pr.1 * s
    let idx := (cumFind distsSq 0 target 0).getD (distsSq.length - 1)
    let a := allocVec h1 (readVec h1 ((embs.getD idx ⟨"", 0⟩).ref))
    (a.1, crefs ++ [a.2], pr.2)) (a0.1, [a0.2], p0.2)

/-- Centroid update step against the heap: the mean overwrites the array
behind the centroid's reference; an orphan re-seed allocates a fresh copy of
a record's vector and rebinds the centroid list entry to it. -/
def updateCentroidsH (embs : List EmbRef) (k : Nat) (asg : List Int) (h : Heap) (crefs : List Nat) (rand : List ℚ) : Heap × List Nat × List ℚ :=
  (List.range k).foldl (fun st (c : Nat) =>
    let h1 := st.1
    let cr := st.2.1
    let cnt := asg.countP (fun a => decide (a = (c : Int)))
    if 0 < cnt then
      let mean := (List.range 512).map (fun j =>
        (((asg.zip embs).filter (fun p => decide (p.1 = (c : Int)))).map
          (fun p => (readVec h1 p.2.ref).getD j 0)).sum / (cnt : ℚ))
      (writeVec h1 (cr.getD c 0) mean, cr, st.2.2)
    else
      let pr := nextRand st.2.2
      let idx := ratFloorIdx pr.1 embs.length
      let a := allocVec h1 (readVec h1 ((embs.getD idx ⟨"", 0⟩).ref))
      (a.1, cr.set c a.2, pr.2)) (h, crefs, rand)

/-- Lloyd's loop against the heap. -/
def lloydLoopH (embs : List EmbRef) (k : Nat) : Nat → Heap → List Nat → List Int → List ℚ → Heap × List Nat × List Int × List ℚ
  | 0, h, crefs, asg, rand => (h, crefs, asg, rand)
  | fuel + 1, h, crefs, asg, rand =>
    let newAsg := embs.map (fun e => bestClusterH h k crefs (readVec h e.ref))
    if newAsg = asg then (h, crefs, asg, rand)
    else
      let upd := updateCentroidsH embs k newAsg h crefs rand
      lloydLoopH embs k fuel upd.1 upd.2.1 newAsg upd.2.2

/-- The warm-start deep copy `previousCentroids.map(c => [...c])`: a fresh
array is allocated per previous centroid and the originals are never written
again. -/
def warmCopy (h : Heap) (pcs : List Nat) : Heap × List Nat :=
  pcs.foldl (fun st p =>
    let a := allocVec st.1 (readVec st.1 p)
    (a.1, st.2 ++ [a.2])) (h, [])

/-- `kMeans` against the heap: warm start deep-copies the previous centroid
arrays, cold start allocates via K-Means++, then Lloyd's loop runs with all
writes going to centroid references. -/
def kMeansH (h : Heap) (embs : List EmbRef) (k : Nat) (prev : Option (List Nat)) (rand : List ℚ) : Heap × List Nat × List Int × List ℚ :=
  let init : Heap × List Nat × List ℚ :=
    match prev with
    | some pcs =>
      if pcs.length = k then
        let w := warmCopy h pcs
        (w.1, w.2, rand)
      else initKMeansPlusPlusH h embs k rand
    | none => initKMeansPlusPlusH h embs k rand
  lloydLoopH embs k 20 init.1 init.2.1 (List.replicate embs.length (-1)) init.2.2

/-- `updateClusters` against the heap: `kMeans` is the only phase that
allocates or writes number arrays; the post-processing (grouping,
representative selection, sorting, relabeling) only reads the final heap. -/
def updateClustersH (h : Heap) (embs : List EmbRef) (k : Nat) (dedupThreshold : ℚ) (prev : Option (List Nat)) (rand : List ℚ) : Heap × ClusterSet :=
  if embs = [] then (h, ⟨[], []⟩)
  else
    let k1 := if embs.length < k then embs.length else k
    let res := kMeansH h embs k1 prev rand
    let h1 := res.1
    let mats := embs.map (fun e => ({ path := e.path, embedding := readVec h1 e.ref } : Member))
    let cents := res.2.1.map (fun r => readVec h1 r)
    (h1, ⟨postProcess mats dedupThreshold cents res.2.2.1, cents⟩)

/-- The frame relation between heaps: `h` extends `h0` and every array that
existed in `h0` reads back unchanged. -/
def HeapFrame (h0 h : Heap) : Prop :=
  h0.length ≤ h.length ∧ ∀ r, r < h0.length → readVec h r = readVec h0 r

/-! ### Concrete example data used in counterexamples and witnesses

All vectors below have integer coordinates with perfect-square magnitudes
(`[1,0]`, `[0,1]`, `[3,4]`, …), so `ratSqrt` is exact on every magnitude the
engine computes for them and the model performs exactly the comparisons the
floating-point source performs. -/

/-- Build a fresh embedding record. -/
def mkRecord (p : String) (v : List ℚ) : Member := { path := p, embedding := v }

/-- Sixteen records sharing one embedding (near-duplicates with distinct
paths): the dedup threshold collapses them to a single representative. -/
def dupRecords : List Member :=
  (List.range 16).map (fun i => mkRecord ("p" ++ toString i) [3, 4])

/-- Two separated records; the one closer to the final centroid is listed
second, so representative selection reorders them. -/
def twoRecords : List Member := [mkRecord "a" [1, 0], mkRecord "b" [3, 4]]

/-- Three records in two warm-start groups; the larger group has centroid
index 1, so after size-sorting the `id` fields read `[1, 0]`. -/
def threeRecords : List Member :=
  [mkRecord "a" [1, 0], mkRecord "b" [0, 1], mkRecord "c" [0, 1]]

/-- The sixteen paths recorded by a freeze. -/
def frozenPathsEx : List String := (List.range 16).map (fun i => "o" ++ toString (i + 1))

/-- A frozen entry as recorded at freeze time for `frozenPathsEx`. -/
def frozenEntryEx : FrozenEntry :=
  { preferredPaths := frozenPathsEx.toFinset, originalPaths := frozenPathsEx.toFinset,
    initialIndex := 0 }

/-- A new-pass cluster in which only 8 of the frozen paths survive and the
8 other members are mutual near-duplicates: the freeze enforcement keeps the
8 originals and dedup collapses the fillers to one. -/
def frozenClusterEx : Cluster :=
  { id := 0, label := "Cluster 1", centroid := [3, 4],
    members :=
      [mkRecord "o1" [1, 0], mkRecord "o2" [0, 1], mkRecord "o3" [3, 4],
       mkRecord "o4" [4, 3], mkRecord "o5" [6, 8], mkRecord "o6" [8, 6],
       mkRecord "o7" [5, 12], mkRecord "o8" [12, 5]] ++
      (List.range 8).map (fun i => mkRecord ("x" ++ toString i) [3, 4]),
    representatives := [] }

/-- A frozen entry whose sixteen paths are exactly the paths of
`dupRecords` (used with threshold 0, where dedup rejects nothing). -/
def dupEntryEx : FrozenEntry :=
  { preferredPaths := (dupRecords.map (fun m => m.path)).toFinset,
    originalPaths := (dupRecords.map (fun m => m.path)).toFinset,
    initialIndex := 0 }

/-- A new-pass cluster containing all sixteen `dupRecords`. -/
def dupClusterEx : Cluster :=
  { id := 0, label := "Cluster 1", centroid := [3, 4], members := dupRecords,
    representatives := [] }

/-- A frozen app cluster whose single representative has path `"a"`. -/
def appClusterEx : Cluster :=
  { id := 0, label := "Cluster 1", centroid := [1, 0],
    members := [mkRecord "a" [1, 0]],
    representatives := [mkRecord "a" [1, 0]], isFrozen := true }

/-- An orchestrator state with one frozen cluster and no exclusions. -/
def appStateEx : AppState :=
  { currentEmbeddings := [mkRecord "a" [1, 0], mkRecord "b" [0, 1]],
    currentClusters := [appClusterEx],
    lastCentroids := none,
    excludedPaths := ∅,
    k := 6, threshold := 3 / 20,
    frozenClusters := [(0, { preferredPaths := {"a"}, originalPaths := {"a"}, initialIndex := 0 })],
    isClustering := false, pendingRecluster := false,
    manifest := { processedCount := 2, totalImagesFound := 2, excludedImages := [] },
    passesStarted := 0 }

/-- The same orchestrator state with a clustering pass in flight. -/
def busyStateEx : AppState := { appStateEx with isClustering := true }

/-- An orchestrator state whose cluster 0 has 16 representatives, ready to
be frozen. -/
def freezeStateEx : AppState :=
  { appStateEx with
    currentClusters := [{ dupClusterEx with representatives := dupRecords }],
    frozenClusters := [] }

/-- The contract of claim C1 for `applyFrozenConstraints`: the discovery
phase enumerates exactly the pairings with at least 8 shared preferred
paths; the candidate list is processed as a permutation of the discovery
output in descending match-count order; no two accepted assignments share an
`oldIndex` or a `targetIndex`, every accepted assignment is keyed by its own
`oldIndex` and comes from the sorted candidate list; and the resulting
frozen map keeps exactly the entries with an accepted, large-enough target —
an entry with no accepted candidate contributes nothing (auto-unfreeze). -/
def freezeApplyContract (thr : ℚ) (frozen : FrozenMap) (clusters : List Cluster) : Prop :=
  (∀ a : Assign, a ∈ discover frozen clusters ↔
    ((a.oldIndex, a.frozenData) ∈ frozen ∧ a.targetIndex < clusters.length ∧
     a.matchCount = matchCountOf a.frozenData (clusters.getD a.targetIndex dfltCluster) ∧
     8 ≤ a.matchCount)) ∧
  (sortAssigns (discover frozen clusters)).Perm (discover frozen clusters) ∧
  (sortAssigns (discover frozen clusters)).Pairwise (fun a b => b.matchCount ≤ a.matchCount) ∧
  ((resolvedAssignments frozen clusters).map Prod.fst).Nodup ∧
  ((resolvedAssignments frozen clusters).map (fun p => p.2.targetIndex)).Nodup ∧
  (∀ p ∈ resolvedAssignments frozen clusters,
    p.1 = p.2.oldIndex ∧ p.2 ∈ sortAssigns (discover frozen clusters)) ∧
  (applyFrozenConstraints thr frozen clusters).2
    = frozen.filterMap (enforceEntry thr clusters (resolvedAssignments frozen clusters))

/-- A two-cell heap: cell 0 is a previous centroid, cell 1 an embedding. -/
def heapEx : Heap := [[3, 4], [1, 0]]

/-- One heap-model record whose vector is heap cell 1. -/
def embRefsEx : List EmbRef := [{ path := "a", ref := 1 }]

/-! ## Lemmas about the stable sort -/

theorem insertStable_perm {α : Type} (le : α → α → Bool) (x : α) (l : List α) :
    (insertStable le x l).Perm (x :: l) := by
  induction l with
  | nil => simp [insertStable]
  | cons y ys ih =>
    by_cases h : le x y
    · simp [insertStable, h]
    · simp only [insertStable]
      rw [if_neg h]
      exact (List.Perm.cons y ih).trans (List.Perm.swap x y ys)

theorem stableSort_perm {α : Type} (le : α → α → Bool) (l : List α) :
    (stableSort le l).Perm l := by
  induction l with
  | nil => simp [stableSort]
  | cons x xs ih =>
    have h1 : stableSort le (x :: xs) = insertStable le x (stableSort le xs) := rfl
    rw [h1]
    exact (insertStable_perm le x (stableSort le xs)).trans (List.Perm.cons x ih)

theorem mem_insertStable {α : Type} (le : α → α → Bool) (x a : α) (l : List α) :
    a ∈ insertStable le x l ↔ a = x ∨ a ∈ l := by
  rw [(insertStable_perm le x l).mem_iff]
  simp

theorem pairwise_insertStable {α : Type} (le : α → α → Bool)
    (htot : ∀ a b, le a b = true ∨ le b a = true)
    (htrans : ∀ a b c, le a b = true → le b c = true → le a c = true)
    (x : α) (l : List α) (hl : l.Pairwise (fun a b => le a b = true)) :
    (insertStable le x l).Pairwise (fun a b => le a b = true) := by
  induction l with
  | nil => simp [insertStable]
  | cons y ys ih =>
    rcases List.pairwise_cons.mp hl with ⟨hy, hys⟩
    by_cases h : le x y
    · simp only [insertStable]
      rw [if_pos h]
      refine List.pairwise_cons.mpr ⟨?_, hl⟩
      intro z hz
      rcases List.mem_cons.mp hz with rfl | hz2
      · exact h
      · exact htrans x y z h (hy z hz2)
    · simp only [insertStable]
      rw [if_neg h]
      refine List.pairwise_cons.mpr ⟨?_, ih hys⟩
      intro z hz
      rcases (mem_insertStable le x z ys).mp hz with hz1 | hz2
      · subst hz1
        rcases htot z y with hxy | hyx
        · exact absurd hxy h
        · exact hyx
      · exact hy z hz2

theorem stableSort_pairwise {α : Type} (le : α → α → Bool)
    (htot : ∀ a b, le a b = true ∨ le b a = true)
    (htrans : ∀ a b c, le a b = true → le b c = true → le a c = true)
    (l : List α) :
    (stableSort le l).Pairwise (fun a b => le a b = true) := by
  induction l with
  | nil => simp [stableSort]
  | cons x xs ih => exact pairwise_insertStable le htot htrans x (stableSort le xs) ih

/-! ## Lemmas about `greedyPick` and `selectClosestToCentroid` -/

theorem greedyPick_cons_stop (limit : Nat) (thr : ℚ) (item : Member × ℚ) (rest : List (Member × ℚ))
    (acc : List Member) (h : limit ≤ acc.length) :
    greedyPick limit thr (item :: rest) acc = acc := by
  simp [greedyPick, h]

theorem greedyPick_cons_skip (limit : Nat) (thr : ℚ) (item : Member × ℚ) (rest : List (Member × ℚ))
    (acc : List Member) (h1 : ¬ limit ≤ acc.length)
    (h2 : acc.any (fun rep => decide (cosineDistance item.1.embedding rep.embedding < thr)) = true) :
    greedyPick limit thr (item :: rest) acc = greedyPick limit thr rest acc := by
  simp [greedyPick, h1, h2]

theorem greedyPick_cons_take (limit : Nat) (thr : ℚ) (item : Member × ℚ) (rest : List (Member × ℚ))
    (acc : List Member) (h1 : ¬ limit ≤ acc.length)
    (h2 : ¬ acc.any (fun rep => decide (cosineDistance item.1.embedding rep.embedding < thr)) = true) :
    greedyPick limit thr (item :: rest) acc = greedyPick limit thr rest (acc ++ [item.1]) := by
  simp only [greedyPick]
  rw [if_neg h1, if_neg h2]

theorem greedyPick_shape (limit : Nat) (thr : ℚ) (items : List (Member × ℚ)) (acc : List Member) :
    ∃ sub, greedyPick limit thr items acc = acc ++ sub ∧
      sub.Sublist (items.map (fun p => p.1)) := by
  induction items generalizing acc with
  | nil => exact ⟨[], by simp [greedyPick], List.nil_sublist _⟩
  | cons item rest ih =>
    by_cases h1 : limit ≤ acc.length
    · exact ⟨[], by simp [greedyPick_cons_stop _ _ _ _ _ h1], List.nil_sublist _⟩
    · by_cases h2 : acc.any (fun rep => decide (cosineDistance item.1.embedding rep.embedding < thr))
      · rcases ih acc with ⟨sub, heq, hsub⟩
        exact ⟨sub, by rw [greedyPick_cons_skip _ _ _ _ _ h1 h2, heq], hsub.cons item.1⟩
      · rcases ih (acc ++ [item.1]) with ⟨sub, heq, hsub⟩
        refine ⟨item.1 :: sub, ?_, hsub.cons₂ item.1⟩
        rw [greedyPick_cons_take _ _ _ _ _ h1 h2, heq, List.append_assoc]
        rfl

theorem greedyPick_length_le (limit : Nat) (thr : ℚ) (items : List (Member × ℚ)) (acc : List Member) :
    (greedyPick limit thr items acc).length ≤ max acc.length limit := by
  induction items generalizing acc with
  | nil => simp [greedyPick]
  | cons item rest ih =>
    by_cases h1 : limit ≤ acc.length
    · rw [greedyPick_cons_stop _ _ _ _ _ h1]
      exact Nat.le_max_left _ _
    · by_cases h2 : acc.any (fun rep => decide (cosineDistance item.1.embedding rep.embedding < thr))
      · rw [greedyPick_cons_skip _ _ _ _ _ h1 h2]
        exact ih acc
      · rw [greedyPick_cons_take _ _ _ _ _ h1 h2]
        have h3 := ih (acc ++ [item.1])
        have h4 : (acc ++ [item.1]).length ≤ limit := by
          simp only [List.length_append, List.length_singleton]
          exact Nat.lt_of_not_le h1
        calc (greedyPick limit thr rest (acc ++ [item.1])).length
            ≤ max (acc ++ [item.1]).length limit := h3
          _ = limit := Nat.max_eq_right h4
          _ ≤ max acc.length limit := Nat.le_max_right _ _

theorem greedyPick_pairwise (limit : Nat) (thr : ℚ) (items : List (Member × ℚ)) (acc : List Member)
    (hacc : acc.Pairwise (fun x y => thr ≤ cosineDistance y.embedding x.embedding)) :
    (greedyPick limit thr items acc).Pairwise
      (fun x y => thr ≤ cosineDistance y.embedding x.embedding) := by
  induction items generalizing acc with
  | nil => simpa [greedyPick] using hacc
  | cons item rest ih =>
    by_cases h1 : limit ≤ acc.length
    · rw [greedyPick_cons_stop _ _ _ _ _ h1]
      exact hacc
    · by_cases h2 : acc.any (fun rep => decide (cosineDistance item.1.embedding rep.embedding < thr))
      · rw [greedyPick_cons_skip _ _ _ _ _ h1 h2]
        exact ih acc hacc
      · rw [greedyPick_cons_take _ _ _ _ _ h1 h2]
        refine ih (acc ++ [item.1]) ?_
        rw [List.pairwise_append]
        refine ⟨hacc, List.pairwise_singleton _ _, ?_⟩
        intro a ha b hb
        rcases List.mem_singleton.mp hb with rfl
        have h3 : ¬ (cosineDistance item.1.embedding a.embedding < thr) := by
          intro hlt
          exact h2 (List.any_eq_true.mpr ⟨a, ha, by simpa using hlt⟩)
        exact le_of_not_lt h3

theorem greedyPick_full_length (limit : Nat) (thr : ℚ) (items : List (Member × ℚ)) (acc : List Member)
    (hle : acc.length ≤ limit)
    (hpw2 : ∀ p ∈ items, ∀ rep ∈ acc, thr ≤ cosineDistance p.1.embedding rep.embedding)
    (hpairs : items.Pairwise (fun p q => thr ≤ cosineDistance q.1.embedding p.1.embedding)) :
    (greedyPick limit thr items acc).length = min limit (acc.length + items.length) := by
  induction items generalizing acc with
  | nil =>
    simp only [greedyPick, List.length_nil, Nat.add_zero]
    exact (Nat.min_eq_right hle).symm
  | cons item rest ih =>
    rcases List.pairwise_cons.mp hpairs with ⟨hhead, htail⟩
    by_cases h1 : limit ≤ acc.length
    · have h2 : acc.length = limit := Nat.le_antisymm hle h1
      rw [greedyPick_cons_stop _ _ _ _ _ h1, h2]
      exact (Nat.min_eq_left (Nat.le_add_right _ _)).symm
    · have h2 : ¬ acc.any (fun rep => decide (cosineDistance item.1.embedding rep.embedding < thr)) = true := by
        intro hany
        rcases List.any_eq_true.mp hany with ⟨rep, hrep, hd⟩
        have h3 := hpw2 item (List.mem_cons_self _ _) rep hrep
        simp only [decide_eq_true_iff] at hd
        exact absurd h3 (not_le_of_lt hd)
      rw [greedyPick_cons_take _ _ _ _ _ h1 h2]
      have h3 : (acc ++ [item.1]).length ≤ limit := by
        simp only [List.length_append, List.length_singleton]
        exact Nat.lt_of_not_le h1
      have h4 : ∀ p ∈ rest, ∀ rep ∈ acc ++ [item.1],
          thr ≤ cosineDistance p.1.embedding rep.embedding := by
        intro p hp rep hrep
        rcases List.mem_append.mp hrep with hrep2 | hrep2
        · exact hpw2 p (List.mem_cons_of_mem _ hp) rep hrep2
        · rcases List.mem_singleton.mp hrep2 with rfl
          exact hhead p hp
      have h5 := ih (acc ++ [item.1]) h3 h4 htail
      rw [h5]
      have h6 : (acc ++ [item.1]).length + rest.length = acc.length + (item :: rest).length := by
        simp only [List.length_append, List.length_singleton, List.length_cons, List.length_nil]
        omega
      rw [h6]

theorem selectClosestToCentroid_eq (members : List Member) (centroid : List ℚ) (limit : Nat) (thr : ℚ)
    (h : members ≠ []) :
    selectClosestToCentroid members centroid limit thr =
      greedyPick limit thr
        (stableSort (fun a b => decide (a.2 ≤ b.2))
          (members.map (fun m => (m, cosineDistance m.embedding centroid)))) [] := by
  simp only [selectClosestToCentroid]
  rw [if_neg h]

theorem selectClosestToCentroid_length_le (members : List Member) (centroid : List ℚ) (limit : Nat) (thr : ℚ) :
    (selectClosestToCentroid members centroid limit thr).length ≤ limit := by
  by_cases h : members = []
  · simp [selectClosestToCentroid, h]
  · rw [selectClosestToCentroid_eq members centroid limit thr h]
    have h2 := greedyPick_length_le limit thr
      (stableSort (fun a b => decide (a.2 ≤ b.2))
        (members.map (fun m => (m, cosineDistance m.embedding centroid)))) []
    simpa using h2

theorem selectClosestToCentroid_subset (members : List Member) (centroid : List ℚ) (limit : Nat) (thr : ℚ) :
    ∀ r ∈ selectClosestToCentroid members centroid limit thr, r ∈ members := by
  intro r hr
  by_cases h : members = []
  · simp [selectClosestToCentroid, h] at hr
  · rw [selectClosestToCentroid_eq members centroid limit thr h] at hr
    rcases greedyPick_shape limit thr
      (stableSort (fun a b => decide (a.2 ≤ b.2))
        (members.map (fun m => (m, cosineDistance m.embedding centroid)))) [] with ⟨sub, heq, hsub⟩
    rw [heq] at hr
    simp only [List.nil_append] at hr
    have h2 := hsub.subset hr
    rcases List.mem_map.mp h2 with ⟨p, hp, rfl⟩
    have h3 : p ∈ members.map (fun m => (m, cosineDistance m.embedding centroid)) :=
      (stableSort_perm _ _).mem_iff.mp hp
    rcases List.mem_map.mp h3 with ⟨m, hm, rfl⟩
    exact hm

theorem selectClosestToCentroid_length_le_members (members : List Member) (centroid : List ℚ) (limit : Nat) (thr : ℚ) :
    (selectClosestToCentroid members centroid limit thr).length ≤ members.length := by
  by_cases h : members = []
  · simp [selectClosestToCentroid, h]
  · rw [selectClosestToCentroid_eq members centroid limit thr h]
    rcases greedyPick_shape limit thr
      (stableSort (fun a b => decide (a.2 ≤ b.2))
        (members.map (fun m => (m, cosineDistance m.embedding centroid)))) [] with ⟨sub, heq, hsub⟩
    rw [heq]
    simp only [List.nil_append]
    calc sub.length
        ≤ ((stableSort (fun a b => decide (a.2 ≤ b.2))
            (members.map (fun m => (m, cosineDistance m.embedding centroid)))).map
              (fun p => p.1)).length := hsub.length_le
      _ = members.length := by
          rw [List.length_map, (stableSort_perm _ _).length_eq, List.length_map]

theorem selectClosestToCentroid_pairwise (members : List Member) (centroid : List ℚ) (limit : Nat) (thr : ℚ) :
    (selectClosestToCentroid members centroid limit thr).Pairwise
      (fun x y => thr ≤ cosineDistance y.embedding x.embedding) := by
  by_cases h : members = []
  · simp [selectClosestToCentroid, h]
  · rw [selectClosestToCentroid_eq members centroid limit thr h]
    exact greedyPick_pairwise _ _ _ [] List.Pairwise.nil

theorem selectClosestToCentroid_full_length (members : List Member) (centroid : List ℚ) (limit : Nat) (thr : ℚ)
    (hnd : members.Nodup)
    (hpw : ∀ x ∈ members, ∀ y ∈ members, x ≠ y → thr ≤ cosineDistance x.embedding y.embedding) :
    (selectClosestToCentroid members centroid limit thr).length = min limit members.length := by
  by_cases h : members = []
  · simp [selectClosestToCentroid, h]
  · rw [selectClosestToCentroid_eq members centroid limit thr h]
    have hperm : (stableSort (fun a b => decide (a.2 ≤ b.2))
        (members.map (fun m => (m, cosineDistance m.embedding centroid)))).Perm
          (members.map (fun m => (m, cosineDistance m.embedding centroid))) := stableSort_perm _ _
    have hinj : Function.Injective (fun m : Member => (m, cosineDistance m.embedding centroid)) := by
      intro a b hab
      exact congrArg Prod.fst hab
    have hndw : (members.map (fun m => (m, cosineDistance m.embedding centroid))).Nodup :=
      hnd.map hinj
    have hnds := hperm.nodup_iff.mpr hndw
    have hpairs : (stableSort (fun a b => decide (a.2 ≤ b.2))
        (members.map (fun m => (m, cosineDistance m.embedding centroid)))).Pairwise
          (fun p q => thr ≤ cosineDistance q.1.embedding p.1.embedding) := by
      refine List.Pairwise.imp_of_mem ?_ hnds
      intro p q hp hq hne
      rcases List.mem_map.mp (hperm.mem_iff.mp hp) with ⟨m, hm, hpm⟩
      rcases List.mem_map.mp (hperm.mem_iff.mp hq) with ⟨m2, hm2, hqm⟩
      subst hpm
      subst hqm
      refine hpw m2 hm2 m hm ?_
      intro he
      exact hne (by rw [he])
    have h2 := greedyPick_full_length limit thr _ []
      (Nat.zero_le _) (by intro p hp rep hrep; simp at hrep) hpairs
    rw [h2]
    rw [List.length_nil, Nat.zero_add, hperm.length_eq, List.length_map]

/-! ## Symmetry of the cosine distance on equal-length vectors -/

theorem cosineSimilarity_comm (a b : List ℚ) (h : a.length = b.length) :
    cosineSimilarity a b = cosineSimilarity b a := by
  simp only [cosineSimilarity]
  rw [← h]
  have hdot : (List.range a.length).map (fun i => b.getD i 0 * a.getD i 0)
      = (List.range a.length).map (fun i => a.getD i 0 * b.getD i 0) := by
    apply List.map_congr_left
    intro i _
    exact mul_comm _ _
  rw [hdot]
  by_cases hA : ((List.range a.length).map (fun i => a.getD i 0 * a.getD i 0)).sum = 0
  · rw [if_pos (Or.inl hA), if_pos (Or.inr hA)]
  · by_cases hB : ((List.range a.length).map (fun i => b.getD i 0 * b.getD i 0)).sum = 0
    · rw [if_pos (Or.inr hB), if_pos (Or.inl hB)]
    · rw [if_neg (fun hc => hc.elim hA hB), if_neg (fun hc => hc.elim hB hA)]
      rw [mul_comm (ratSqrt _) (ratSqrt _)]

theorem cosineDistance_comm (a b : List ℚ) (h : a.length = b.length) :
    cosineDistance a b = cosineDistance b a := by
  simp only [cosineDistance, cosineSimilarity_comm a b h]

/-! ## Auxiliary list lemmas -/

theorem set_getD_self {α : Type} (l : List α) (i : Nat) (d : α) :
    l.set i (l.getD i d) = l := by
  apply List.ext_getElem
  · simp
  · intro j h1 h2
    by_cases hij : i = j
    · subst hij
      rw [List.getElem_set_self (by simpa using h1)]
      exact List.getD_eq_getElem l d h2
    · exact List.getElem_set_ne hij _

theorem getD_map {α β : Type} (f : α → β) (l : List α) (i : Nat) (d : α) :
    (l.map f).getD i (f d) = f (l.getD i d) := by
  simp only [List.getD_eq_getElem?_getD, List.getElem?_map]
  cases l[i]? <;> simp

/-! ## `pushMembers` only changes the `members` fields -/

theorem pushMembers_map_id (cls : List Cluster) (e : List Member) (a : List Int) :
    (pushMembers cls e a).map (fun c => c.id) = cls.map (fun c => c.id) := by
  unfold pushMembers
  generalize (a.zip e) = ps
  induction ps generalizing cls with
  | nil => rfl
  | cons p ps ih =>
    rw [List.foldl_cons]
    rw [ih]
    by_cases h : 0 ≤ p.1 ∧ p.1.toNat < cls.length
    · rw [if_pos h]
      rw [List.map_set]
      have h2 : (cls.getD p.1.toNat dfltCluster).id
          = (cls.map (fun c => c.id)).getD p.1.toNat dfltCluster.id := (getD_map _ _ _ _).symm
      rw [h2]
      exact set_getD_self _ _ _
    · rw [if_neg h]

/-! ## Lengths through `kMeans` -/

theorem foldl_fst_length_add {σ τ : Type} (g : List (List ℚ) × τ → σ → List (List ℚ) × τ)
    (hg : ∀ st x, (g st x).1.length = st.1.length + 1) :
    ∀ (l : List σ) (st : List (List ℚ) × τ),
      (l.foldl g st).1.length = st.1.length + l.length := by
  intro l
  induction l with
  | nil => intro st; simp
  | cons x xs ih =>
    intro st
    rw [List.foldl_cons, ih, hg]
    simp only [List.length_cons]
    omega

theorem foldl_fst_length_eq {σ τ : Type} (g : List (List ℚ) × τ → σ → List (List ℚ) × τ)
    (hg : ∀ st x, (g st x).1.length = st.1.length) :
    ∀ (l : List σ) (st : List (List ℚ) × τ),
      (l.foldl g st).1.length = st.1.length := by
  intro l
  induction l with
  | nil => intro st; rfl
  | cons x xs ih =>
    intro st
    rw [List.foldl_cons, ih, hg]

theorem initKMeansPlusPlus_length (embs : List Member) (k : Nat) (rand : List ℚ) (hk : 1 ≤ k) :
    (initKMeansPlusPlus embs k rand).1.length = k := by
  simp only [initKMeansPlusPlus]
  rw [foldl_fst_length_add _ (by intro st x; simp)]
  simp only [List.length_singleton, List.length_range]
  omega

theorem updateCentroids_length (embs : List Member) (k : Nat) (asg : List Int)
    (cents : List (List ℚ)) (rand : List ℚ) :
    (updateCentroids embs k asg cents rand).1.length = cents.length := by
  simp only [updateCentroids]
  rw [foldl_fst_length_eq _ ?hg]
  case hg =>
    intro st c
    by_cases h : 0 < asg.countP (fun a => decide (a = (c : Int)))
    · simp [h]
    · simp [h]

theorem lloydLoop_length (embs : List Member) (k : Nat) :
    ∀ (fuel : Nat) (cents : List (List ℚ)) (asg : List Int) (rand : List ℚ),
      (lloydLoop embs k fuel cents asg rand).1.length = cents.length := by
  intro fuel
  induction fuel with
  | zero => intro cents asg rand; rfl
  | succ n ih =>
    intro cents asg rand
    simp only [lloydLoop]
    by_cases h : embs.map (fun e => bestCluster k cents e.embedding) = asg
    · rw [if_pos h]
    · rw [if_neg h, ih, updateCentroids_length]

theorem kMeans_length (embeddings : List Member) (k : Nat)
    (prev : Option (List (List ℚ))) (rand : List ℚ) (hk : 1 ≤ k) :
    (kMeans embeddings k prev rand).1.length = k := by
  cases prev with
  | none =>
    simp only [kMeans]
    rw [lloydLoop_length]
    exact initKMeansPlusPlus_length embeddings k rand hk
  | some pcs =>
    simp only [kMeans]
    by_cases h : pcs.length = k
    · rw [if_pos h, lloydLoop_length]
      exact h
    · rw [if_neg h, lloydLoop_length]
      exact initKMeansPlusPlus_length embeddings k rand hk

/-! ## Characterizing the clusters returned by `postProcess` -/

theorem postProcess_mem_reps (e : List Member) (thr : ℚ) (cents : List (List ℚ)) (asg : List Int) :
    ∀ c ∈ postProcess e thr cents asg,
      c.representatives = selectClosestToCentroid c.members c.centroid 16 thr := by
  intro c hc
  unfold postProcess at hc
  rcases List.mem_map.mp hc with ⟨p, hp, rfl⟩
  have hp2 : p.2 ∈ stableSort (fun a b => decide (b.members.length ≤ a.members.length))
      ((pushMembers (cents.enum.map (fun p =>
          ({ id := p.1, label := "Cluster " ++ toString (p.1 + 1), centroid := p.2,
             members := [], representatives := [] } : Cluster))) e asg).map (fun c =>
        { c with representatives := selectClosestToCentroid c.members c.centroid 16 thr })) := by
    rw [List.enum_eq_zip_range] at hp
    exact (List.of_mem_zip hp).2
  have hp3 := (stableSort_perm _ _).mem_iff.mp hp2
  rcases List.mem_map.mp hp3 with ⟨c0, hc0, hq⟩
  rw [← hq]

theorem postProcess_sorted (e : List Member) (thr : ℚ) (cents : List (List ℚ)) (asg : List Int) :
    (postProcess e thr cents asg).Pairwise
      (fun a b => b.members.length ≤ a.members.length) := by
  unfold postProcess
  rw [List.pairwise_map]
  have hsorted := stableSort_pairwise (fun a b : Cluster => decide (b.members.length ≤ a.members.length))
    (by intro a b; rcases Nat.le_total b.members.length a.members.length with h | h
        · exact Or.inl (decide_eq_true h)
        · exact Or.inr (decide_eq_true h))
    (by intro a b c h1 h2
        exact decide_eq_true (Nat.le_trans (of_decide_eq_true h2) (of_decide_eq_true h1)))
    ((pushMembers (cents.enum.map (fun p =>
        ({ id := p.1, label := "Cluster " ++ toString (p.1 + 1), centroid := p.2,
           members := [], representatives := [] } : Cluster))) e asg).map (fun c =>
      { c with representatives := selectClosestToCentroid c.members c.centroid 16 thr }))
  have hsorted2 : (stableSort (fun a b : Cluster => decide (b.members.length ≤ a.members.length))
      ((pushMembers (cents.enum.map (fun p =>
          ({ id := p.1, label := "Cluster " ++ toString (p.1 + 1), centroid := p.2,
             members := [], representatives := [] } : Cluster))) e asg).map (fun c =>
        { c with representatives := selectClosestToCentroid c.members c.centroid 16 thr }))).Pairwise
      (fun a b => b.members.length ≤ a.members.length) :=
    hsorted.imp (fun h => of_decide_eq_true h)
  rw [← List.enum_map_snd (stableSort (fun a b : Cluster => decide (b.members.length ≤ a.members.length))
      ((pushMembers (cents.enum.map (fun p =>
          ({ id := p.1, label := "Cluster " ++ toString (p.1 + 1), centroid := p.2,
             members := [], representatives := [] } : Cluster))) e asg).map (fun c =>
        { c with representatives := selectClosestToCentroid c.members c.centroid 16 thr })))] at hsorted2
  exact List.pairwise_map.mp hsorted2

theorem postProcess_labels (e : List Member) (thr : ℚ) (cents : List (List ℚ)) (asg : List Int) :
    ∀ i, i < (postProcess e thr cents asg).length →
      ((postProcess e thr cents asg).getD i dfltCluster).label = "Cluster " ++ toString (i + 1) := by
  intro i h
  unfold postProcess at h ⊢
  rw [List.getD_eq_getElem _ _ h]
  rw [List.getElem_map]
  rw [List.getElem_enum]

theorem postProcess_ids_perm (e : List Member) (thr : ℚ) (cents : List (List ℚ)) (asg : List Int) :
    ((postProcess e thr cents asg).map (fun c => c.id)).Perm (List.range cents.length) := by
  unfold postProcess
  rw [List.map_map]
  have h1 : ((stableSort (fun a b : Cluster => decide (b.members.length ≤ a.members.length))
      ((pushMembers (cents.enum.map (fun p =>
          ({ id := p.1, label := "Cluster " ++ toString (p.1 + 1), centroid := p.2,
             members := [], representatives := [] } : Cluster))) e asg).map (fun c =>
        { c with representatives := selectClosestToCentroid c.members c.centroid 16 thr }))).enum.map
      ((fun c => c.id) ∘ (fun p : Nat × Cluster => { p.2 with label := "Cluster " ++ toString (p.1 + 1) })))
      = ((stableSort (fun a b : Cluster => decide (b.members.length ≤ a.members.length))
      ((pushMembers (cents.enum.map (fun p =>
          ({ id := p.1, label := "Cluster " ++ toString (p.1 + 1), centroid := p.2,
             members := [], representatives := [] } : Cluster))) e asg).map (fun c =>
        { c with representatives := selectClosestToCentroid c.members c.centroid 16 thr }))).enum.map
      ((fun c => c.id) ∘ Prod.snd)) := rfl
  rw [h1, ← List.map_map, List.enum_map_snd]
  have h2 := (stableSort_perm (fun a b : Cluster => decide (b.members.length ≤ a.members.length))
    ((pushMembers (cents.enum.map (fun p =>
        ({ id := p.1, label := "Cluster " ++ toString (p.1 + 1), centroid := p.2,
           members := [], representatives := [] } : Cluster))) e asg).map (fun c =>
      { c with representatives := selectClosestToCentroid c.members c.centroid 16 thr }))).map
    (fun c => c.id)
  refine h2.trans ?_
  rw [List.map_map]
  have h3 : ((pushMembers (cents.enum.map (fun p =>
      ({ id := p.1, label := "Cluster " ++ toString (p.1 + 1), centroid := p.2,
         members := [], representatives := [] } : Cluster))) e asg).map
      ((fun c => c.id) ∘ (fun c =>
        { c with representatives := selectClosestToCentroid c.members c.centroid 16 thr })))
      = ((pushMembers (cents.enum.map (fun p =>
      ({ id := p.1, label := "Cluster " ++ toString (p.1 + 1), centroid := p.2,
         members := [], representatives := [] } : Cluster))) e asg).map (fun c => c.id)) := rfl
  rw [h3, pushMembers_map_id, List.map_map]
  have h4 : (cents.enum.map ((fun c => c.id) ∘ (fun p : Nat × List ℚ =>
      ({ id := p.1, label := "Cluster " ++ toString (p.1 + 1), centroid := p.2,
         members := [], representatives := [] } : Cluster))))
      = cents.enum.map Prod.fst := rfl
  rw [h4, List.enum_map_fst]

/-! ## Claims C2, C5, C6 about `updateClusters` -/

theorem updateClusters_clusters_eq (embs : List Member) (k : Nat) (thr : ℚ)
    (prev : Option (List (List ℚ))) (rand : List ℚ) (h : embs ≠ []) :
    (updateClusters embs k thr prev rand).clusters
      = postProcess embs thr
          (kMeans embs (if embs.length < k then embs.length else k) prev rand).1
          (kMeans embs (if embs.length < k then embs.length else k) prev rand).2.1 := by
  simp only [updateClusters]
  rw [if_neg h]

/-- C2 (amended): every cluster returned by `updateClusters` has at most 16
representatives and no more representatives than members; the counts
`|representatives| = 16` (when `|members| ≥ 16`) and `|representatives| =
|members|` (when `|members| < 16`) hold exactly when the dedup threshold
rejects no candidate, i.e. when all pairs of distinct members are at cosine
distance at least `threshold`; near-duplicate members make the count drop
below those bounds. -/
theorem C2_representative_count (embs : List Member) (k : Nat) (thr : ℚ)
    (prev : Option (List (List ℚ))) (rand : List ℚ) :
    ∀ c ∈ (updateClusters embs k thr prev rand).clusters,
      c.representatives.length ≤ 16 ∧
      c.representatives.length ≤ c.members.length ∧
      (c.members.Nodup →
        (∀ x ∈ c.members, ∀ y ∈ c.members, x ≠ y → thr ≤ cosineDistance x.embedding y.embedding) →
        c.representatives.length = min 16 c.members.length) := by
  intro c hc
  have hreps : c.representatives = selectClosestToCentroid c.members c.centroid 16 thr := by
    by_cases h : embs = []
    · rw [h] at hc
      simp [updateClusters] at hc
    · rw [updateClusters_clusters_eq embs k thr prev rand h] at hc
      exact postProcess_mem_reps _ _ _ _ c hc
  refine ⟨?_, ?_, ?_⟩
  · rw [hreps]
    exact selectClosestToCentroid_length_le _ _ _ _
  · rw [hreps]
    exact selectClosestToCentroid_length_le_members _ _ _ _
  · intro h1 h2
    rw [hreps]
    exact selectClosestToCentroid_full_length _ _ _ _ h1 h2

/-- C2 counterexample: sixteen near-duplicate records form one cluster with
16 members but a single representative, refuting "if `|members| ≥ 16` then
`|representatives| = 16`" (the input uses a warm start, so the run is
deterministic; threshold is the default 0.15). -/
theorem C2_counterexample :
    16 ≤ ((updateClusters dupRecords 1 (3/20) (some [[3, 4]]) []).clusters.getD 0 dfltCluster).members.length
    ∧ ((updateClusters dupRecords 1 (3/20) (some [[3, 4]]) []).clusters.getD 0 dfltCluster).representatives.length ≠ 16 := by
  with_unfolding_all decide

/-- C2 witness: on two well-separated records the amended count
`|representatives| = min 16 |members|` is reached. -/
theorem C2_witness :
    ((updateClusters twoRecords 1 (3/20) (some [[3, 4]]) []).clusters.getD 0 dfltCluster).representatives.length
      = min 16 ((updateClusters twoRecords 1 (3/20) (some [[3, 4]]) []).clusters.getD 0 dfltCluster).members.length :=
  (C2_representative_count twoRecords 1 (3/20) (some [[3, 4]]) []
      ((updateClusters twoRecords 1 (3/20) (some [[3, 4]]) []).clusters.getD 0 dfltCluster)
      (by with_unfolding_all decide)).2.2
    (by with_unfolding_all decide) (by with_unfolding_all decide)

/-- C5 (amended): for every cluster returned by `updateClusters`, every
representative is a member (the representatives form a sub-multiset, not in
general an order-preserving subsequence, of `members`), there are at most 16
of them, and each accepted representative is at cosine distance at least
`threshold` from every earlier-accepted representative — on equal-length
embeddings the distance is symmetric, so all pairs of representatives are at
distance at least `threshold` in both orders. -/
theorem C5_representative_dedup (embs : List Member) (k : Nat) (thr : ℚ)
    (prev : Option (List (List ℚ))) (rand : List ℚ) :
    ∀ c ∈ (updateClusters embs k thr prev rand).clusters,
      (∀ r ∈ c.representatives, r ∈ c.members) ∧
      c.representatives.length ≤ 16 ∧
      c.representatives.Pairwise (fun x y => thr ≤ cosineDistance y.embedding x.embedding) ∧
      ((∀ x ∈ c.members, ∀ y ∈ c.members, x.embedding.length = y.embedding.length) →
        c.representatives.Pairwise (fun x y =>
          thr ≤ cosineDistance x.embedding y.embedding ∧
          thr ≤ cosineDistance y.embedding x.embedding)) := by
  intro c hc
  have hreps : c.representatives = selectClosestToCentroid c.members c.centroid 16 thr := by
    by_cases h : embs = []
    · rw [h] at hc
      simp [updateClusters] at hc
    · rw [updateClusters_clusters_eq embs k thr prev rand h] at hc
      exact postProcess_mem_reps _ _ _ _ c hc
  have hsub : ∀ r ∈ c.representatives, r ∈ c.members := by
    rw [hreps]
    exact selectClosestToCentroid_subset _ _ _ _
  have hpw : c.representatives.Pairwise
      (fun x y => thr ≤ cosineDistance y.embedding x.embedding) := by
    rw [hreps]
    exact selectClosestToCentroid_pairwise _ _ _ _
  refine ⟨hsub, ?_, hpw, ?_⟩
  · rw [hreps]
    exact selectClosestToCentroid_length_le _ _ _ _
  · intro hlen
    refine List.Pairwise.imp_of_mem ?_ hpw
    intro x y hx hy hr
    have hl := hlen x (hsub x hx) y (hsub y hy)
    refine ⟨?_, hr⟩
    rw [cosineDistance_comm x.embedding y.embedding hl]
    exact hr

/-- C5 counterexample: representative selection reorders the member
sequence (the member closer to the centroid comes first), so the
representative sequence is not a subsequence of `members`. -/
theorem C5_counterexample :
    ¬ ((updateClusters twoRecords 1 (3/20) (some [[3, 4]]) []).clusters.getD 0 dfltCluster).representatives.Sublist
      ((updateClusters twoRecords 1 (3/20) (some [[3, 4]]) []).clusters.getD 0 dfltCluster).members := by
  with_unfolding_all decide

/-- C5 witness: on two well-separated equal-dimension records the two
representatives are at distance at least the threshold in both orders. -/
theorem C5_witness :
    ((updateClusters twoRecords 1 (3/20) (some [[3, 4]]) []).clusters.getD 0 dfltCluster).representatives.Pairwise
      (fun x y => (3/20 : ℚ) ≤ cosineDistance x.embedding y.embedding ∧
        (3/20 : ℚ) ≤ cosineDistance y.embedding x.embedding) :=
  ((C5_representative_dedup twoRecords 1 (3/20) (some [[3, 4]]) []
      ((updateClusters twoRecords 1 (3/20) (some [[3, 4]]) []).clusters.getD 0 dfltCluster)
      (by with_unfolding_all decide)).2.2.2)
    (by with_unfolding_all decide)

/-- C6 (amended): for every non-empty input the cluster sequence returned by
`updateClusters` is sorted by descending member count and the label strings
`"Cluster 1" … "Cluster K"` follow the sorted order; the `id` fields are the
0-based pre-sort centroid indices — a permutation of `{0, …, K-1}` — and are
not reassigned after sorting. -/
theorem C6_order_and_labels (embs : List Member) (k : Nat) (thr : ℚ)
    (prev : Option (List (List ℚ))) (rand : List ℚ) (hne : embs ≠ []) (hk : 1 ≤ k) :
    (updateClusters embs k thr prev rand).clusters.Pairwise
      (fun a b => b.members.length ≤ a.members.length) ∧
    (∀ i, i < (updateClusters embs k thr prev rand).clusters.length →
      ((updateClusters embs k thr prev rand).clusters.getD i dfltCluster).label
        = "Cluster " ++ toString (i + 1)) ∧
    ((updateClusters embs k thr prev rand).clusters.map (fun c => c.id)).Perm
      (List.range (if embs.length < k then embs.length else k)) := by
  rw [updateClusters_clusters_eq embs k thr prev rand hne]
  have hk1 : 1 ≤ (if embs.length < k then embs.length else k) := by
    by_cases h : embs.length < k
    · rw [if_pos h]
      exact List.length_pos.mpr hne
    · rw [if_neg h]
      exact hk
  have hlen := kMeans_length embs (if embs.length < k then embs.length else k) prev rand hk1
  refine ⟨postProcess_sorted _ _ _ _, postProcess_labels _ _ _ _, ?_⟩
  have hperm := postProcess_ids_perm embs thr
    (kMeans embs (if embs.length < k then embs.length else k) prev rand).1
    (kMeans embs (if embs.length < k then embs.length else k) prev rand).2.1
  rw [hlen] at hperm
  exact hperm

/-- C6 counterexample: a deterministic warm-start run with two clusters in
which the larger cluster has pre-sort centroid index 1: the returned `id`
sequence is `[1, 0]`, not the claimed `1..K` (`[1, 2]`) in sorted order. -/
theorem C6_counterexample :
    (updateClusters threeRecords 2 (3/20) (some [[1, 0], [0, 1]]) []).clusters.map (fun c => c.id)
      ≠ [1, 2] := by
  with_unfolding_all decide

/-- C6 witness: the amended ordering/label/id statement at a concrete
warm-start input. -/
theorem C6_witness :
    (updateClusters threeRecords 2 (3/20) (some [[1, 0], [0, 1]]) []).clusters.Pairwise
      (fun a b => b.members.length ≤ a.members.length) ∧
    (∀ i, i < (updateClusters threeRecords 2 (3/20) (some [[1, 0], [0, 1]]) []).clusters.length →
      ((updateClusters threeRecords 2 (3/20) (some [[1, 0], [0, 1]]) []).clusters.getD i dfltCluster).label
        = "Cluster " ++ toString (i + 1)) ∧
    ((updateClusters threeRecords 2 (3/20) (some [[1, 0], [0, 1]]) []).clusters.map (fun c => c.id)).Perm
      (List.range (if threeRecords.length < 2 then threeRecords.length else 2)) :=
  C6_order_and_labels threeRecords 2 (3/20) (some [[1, 0], [0, 1]]) []
    (by with_unfolding_all decide) (by decide)

/-! ## Lemmas about the association-list maps -/

theorem mapGet_mem {β : Type} (k : Nat) (m : List (Nat × β)) (v : β)
    (h : mapGet k m = some v) : (k, v) ∈ m := by
  induction m with
  | nil => simp [mapGet] at h
  | cons p rest ih =>
    by_cases hp : p.1 = k
    · rw [mapGet, if_pos hp] at h
      have hv : p.2 = v := Option.some.inj h
      have hpk : p = (k, v) := by
        rcases p with ⟨pa, pb⟩
        simp_all
      rw [← hpk]
      exact List.mem_cons_self p rest
    · rw [mapGet, if_neg hp] at h
      exact List.mem_cons_of_mem _ (ih h)

theorem mapGet_eq_none_iff {β : Type} (k : Nat) (m : List (Nat × β)) :
    mapGet k m = none ↔ k ∉ m.map Prod.fst := by
  induction m with
  | nil => simp [mapGet]
  | cons p rest ih =>
    by_cases hp : p.1 = k
    · rw [mapGet, if_pos hp]
      simp [hp]
    · rw [mapGet, if_neg hp]
      simp only [List.map_cons, List.mem_cons]
      rw [ih]
      constructor
      · intro h hc
        rcases hc with hc | hc
        · exact hp hc.symm
        · exact h hc
      · intro h hc
        exact h (Or.inr hc)

theorem mapGet_append_left_none {β : Type} (k : Nat) (m l : List (Nat × β))
    (h : mapGet k m = none) : mapGet k (m ++ l) = mapGet k l := by
  induction m with
  | nil => simp
  | cons p rest ih =>
    by_cases hp : p.1 = k
    · rw [mapGet, if_pos hp] at h
      cases h
    · rw [mapGet, if_neg hp] at h
      rw [List.cons_append, mapGet, if_neg hp]
      exact ih h

theorem mapGet_mapSet_self {β : Type} (m : List (Nat × β)) (k : Nat) (v : β) :
    mapGet k (mapSet m k v) = some v := by
  unfold mapSet
  by_cases h : (mapGet k m).isSome
  · rw [if_pos h]
    rcases Option.isSome_iff_exists.mp h with ⟨w, hw⟩
    clear h
    induction m with
    | nil => simp [mapGet] at hw
    | cons p rest ih =>
      by_cases hp : p.1 = k
      · simp only [List.map_cons, if_pos hp]
        rw [mapGet, if_pos rfl]
      · rw [mapGet, if_neg hp] at hw
        simp only [List.map_cons, if_neg hp]
        rw [mapGet, if_neg hp]
        exact ih hw
  · rw [if_neg h]
    have h2 : mapGet k m = none := Option.not_isSome_iff_eq_none.mp h
    rw [mapGet_append_left_none k m _ h2, mapGet, if_pos rfl]

/-! ## `getD` after `set` -/

theorem getD_set_ne {α : Type} (l : List α) (i j : Nat) (v d : α) (h : i ≠ j) :
    (l.set i v).getD j d = l.getD j d := by
  simp only [List.getD_eq_getElem?_getD]
  rw [List.getElem?_set_ne h]

theorem getD_set_self {α : Type} (l : List α) (i : Nat) (v d : α) (h : i < l.length) :
    (l.set i v).getD i d = v := by
  rw [List.getD_eq_getElem _ _ (by simpa using h)]
  exact List.getElem_set_self (by simpa using h)

/-! ## The greedy assignment phase -/

theorem foldl_preserve {σ α : Type} (P : σ → Prop) (g : σ → α → σ) :
    ∀ (l : List α), (∀ st a, a ∈ l → P st → P (g st a)) →
      ∀ st, P st → P (l.foldl g st) := by
  intro l
  induction l with
  | nil => intro _ st hst; exact hst
  | cons x xs ih =>
    intro h st hst
    rw [List.foldl_cons]
    refine ih ?_ (g st x) (h st x (List.mem_cons_self _ _) hst)
    intro st2 a ha
    exact h st2 a (List.mem_cons_of_mem _ ha)

/-- The combined invariant of the greedy claim fold. -/
theorem assignGreedy_invariants (l : List Assign) :
    (assignGreedy l).2 = (assignGreedy l).1.map (fun p => p.2.targetIndex) ∧
    ((assignGreedy l).1.map Prod.fst).Nodup ∧
    ((assignGreedy l).1.map (fun p => p.2.targetIndex)).Nodup ∧
    (∀ p ∈ (assignGreedy l).1, p.1 = p.2.oldIndex ∧ p.2 ∈ l) := by
  have h := foldl_preserve
    (fun st : List (Nat × Assign) × List Nat =>
      st.2 = st.1.map (fun p => p.2.targetIndex) ∧
      (st.1.map Prod.fst).Nodup ∧
      (st.1.map (fun p => p.2.targetIndex)).Nodup ∧
      (∀ p ∈ st.1, p.1 = p.2.oldIndex ∧ p.2 ∈ l))
    greedyStep
    l ?_ ([], []) (by simp)
  · exact h
  · intro st a ha hst
    rcases hst with ⟨hsync, hnk, hnt, hmem⟩
    unfold greedyStep
    by_cases h1 : (mapGet a.oldIndex st.1).isSome
    · rw [if_pos h1]
      exact ⟨hsync, hnk, hnt, hmem⟩
    · rw [if_neg h1]
      by_cases h2 : a.targetIndex ∈ st.2
      · rw [if_pos h2]
        exact ⟨hsync, hnk, hnt, hmem⟩
      · rw [if_neg h2]
        have hknotin : a.oldIndex ∉ st.1.map Prod.fst :=
          (mapGet_eq_none_iff _ _).mp (Option.not_isSome_iff_eq_none.mp h1)
        have htnotin : a.targetIndex ∉ st.1.map (fun p => p.2.targetIndex) := by
          rw [hsync] at h2
          exact h2
        refine ⟨by simp [hsync], ?_, ?_, ?_⟩
        · simp only [List.map_append, List.map_cons, List.map_nil]
          have hperm : (st.1.map Prod.fst ++ [a.oldIndex]).Perm
              (a.oldIndex :: st.1.map Prod.fst) := List.perm_append_singleton _ _
          rw [hperm.nodup_iff, List.nodup_cons]
          exact ⟨hknotin, hnk⟩
        · simp only [List.map_append, List.map_cons, List.map_nil]
          have hperm : (st.1.map (fun p => p.2.targetIndex) ++ [a.targetIndex]).Perm
              (a.targetIndex :: st.1.map (fun p => p.2.targetIndex)) :=
            List.perm_append_singleton _ _
          rw [hperm.nodup_iff, List.nodup_cons]
          exact ⟨htnotin, hnt⟩
        · intro p hp
          rcases List.mem_append.mp hp with hp2 | hp2
          · exact hmem p hp2
          · rcases List.mem_singleton.mp hp2 with rfl
            exact ⟨rfl, ha⟩

/-! ## The discovery phase -/

theorem discover_mem (frozen : FrozenMap) (clusters : List Cluster) (a : Assign) :
    a ∈ discover frozen clusters ↔
      ((a.oldIndex, a.frozenData) ∈ frozen ∧ a.targetIndex < clusters.length ∧
       a.matchCount = matchCountOf a.frozenData (clusters.getD a.targetIndex dfltCluster) ∧
       8 ≤ a.matchCount) := by
  unfold discover
  rw [List.mem_flatMap]
  constructor
  · rintro ⟨pe, hpe, ha⟩
    rcases List.mem_filterMap.mp ha with ⟨i, hi, hsome⟩
    by_cases hmc : 8 ≤ matchCountOf pe.2 (clusters.getD i dfltCluster)
    · rw [if_pos hmc] at hsome
      have ha2 := Option.some.inj hsome
      subst ha2
      refine ⟨by simpa using hpe, List.mem_range.mp hi, rfl, hmc⟩
    · rw [if_neg hmc] at hsome
      cases hsome
  · rintro ⟨hpe, hlt, hmc, h8⟩
    refine ⟨(a.oldIndex, a.frozenData), hpe, ?_⟩
    refine List.mem_filterMap.mpr ⟨a.targetIndex, List.mem_range.mpr hlt, ?_⟩
    rw [← hmc, if_pos h8]

/-! ## The enforcement phase -/

/-- Generalized characterization of the enforcement fold: provided the
working cluster list agrees with the original pass at every remaining
accepted target, and the remaining accepted targets are pairwise distinct,
the fold appends exactly the `enforceEntry` images to the accumulator,
preserves the list length, leaves untouched targets unchanged, and rewrites
each accepted large-enough target with `enforcedCluster` applied to the
original pass cluster. -/
theorem enforceAll_aux (thr : ℚ) (resolved : List (Nat × Assign)) (clusters0 : List Cluster) :
    ∀ (rest : List (Nat × FrozenEntry)) (cls : List Cluster) (acc : FrozenMap),
      (∀ pe ∈ rest, ∀ a, mapGet pe.1 resolved = some a →
        cls.getD a.targetIndex dfltCluster = clusters0.getD a.targetIndex dfltCluster) →
      rest.Pairwise (fun pe pf => ∀ a b, mapGet pe.1 resolved = some a →
        mapGet pf.1 resolved = some b → a.targetIndex ≠ b.targetIndex) →
      cls.length = clusters0.length →
      ((rest.foldl (enforceStep thr resolved) (cls, acc)).2
          = acc ++ rest.filterMap (enforceEntry thr clusters0 resolved)) ∧
      ((rest.foldl (enforceStep thr resolved) (cls, acc)).1.length = cls.length) ∧
      (∀ j, (∀ pe ∈ rest, ∀ a, mapGet pe.1 resolved = some a →
          (clusters0.getD a.targetIndex dfltCluster).members.length < 16 ∨ a.targetIndex ≠ j) →
        (rest.foldl (enforceStep thr resolved) (cls, acc)).1.getD j dfltCluster
          = cls.getD j dfltCluster) ∧
      (∀ pe ∈ rest, ∀ a, mapGet pe.1 resolved = some a →
        16 ≤ (clusters0.getD a.targetIndex dfltCluster).members.length →
        (rest.foldl (enforceStep thr resolved) (cls, acc)).1.getD a.targetIndex dfltCluster
          = (enforcedCluster thr (clusters0.getD a.targetIndex dfltCluster) pe.2 pe.1 a.targetIndex).1) := by
  intro rest
  induction rest with
  | nil =>
    intro cls acc hagree hpairs hlen
    refine ⟨by simp, rfl, fun j _ => rfl, ?_⟩
    intro pe hpe
    simp at hpe
  | cons pe rest ih =>
    intro cls acc hagree hpairs hlen
    rcases List.pairwise_cons.mp hpairs with ⟨hhead, htail⟩
    rw [List.foldl_cons]
    cases hget : mapGet pe.1 resolved with
    | none =>
      have hstep : enforceStep thr resolved (cls, acc) pe = (cls, acc) := by
        unfold enforceStep
        rw [hget]
      rw [hstep]
      have hres := ih cls acc (fun pf hpf => hagree pf (List.mem_cons_of_mem _ hpf)) htail hlen
      refine ⟨?_, hres.2.1, ?_, ?_⟩
      · rw [hres.1, List.filterMap_cons]
        have hentry : enforceEntry thr clusters0 resolved pe = none := by
          unfold enforceEntry
          rw [hget]
        rw [hentry]
      · intro j hj
        exact hres.2.2.1 j (fun pf hpf => hj pf (List.mem_cons_of_mem _ hpf))
      · intro pf hpf a hgf hsz
        rcases List.mem_cons.mp hpf with rfl | hpf2
        · rw [hget] at hgf
          cases hgf
        · exact hres.2.2.2 pf hpf2 a hgf hsz
    | some a =>
      have hcur : cls.getD a.targetIndex dfltCluster
          = clusters0.getD a.targetIndex dfltCluster :=
        hagree pe (List.mem_cons_self _ _) a hget
      by_cases hsz : (cls.getD a.targetIndex dfltCluster).members.length < 16
      · have hstep : enforceStep thr resolved (cls, acc) pe = (cls, acc) := by
          unfold enforceStep
          rw [hget]
          simp only [hsz, if_pos]
        rw [hstep]
        have hres := ih cls acc (fun pf hpf => hagree pf (List.mem_cons_of_mem _ hpf)) htail hlen
        refine ⟨?_, hres.2.1, ?_, ?_⟩
        · rw [hres.1, List.filterMap_cons]
          have hentry : enforceEntry thr clusters0 resolved pe = none := by
            unfold enforceEntry
            simp only [hget]
            rw [← hcur]
            simp only [hsz, if_pos]
          rw [hentry]
        · intro j hj
          exact hres.2.2.1 j (fun pf hpf => hj pf (List.mem_cons_of_mem _ hpf))
        · intro pf hpf b hgf hszb
          rcases List.mem_cons.mp hpf with rfl | hpf2
          · rw [hget] at hgf
            have hab := Option.some.inj hgf
            subst hab
            rw [hcur] at hsz
            exact absurd hszb (Nat.not_le_of_lt hsz)
          · exact hres.2.2.2 pf hpf2 b hgf hszb
      · have htlt : a.targetIndex < cls.length := by
          by_contra hge
          have h0 : cls.getD a.targetIndex dfltCluster = dfltCluster := by
            rw [List.getD_eq_getElem?_getD, List.getElem?_eq_none (Nat.le_of_not_lt hge)]
            rfl
          rw [h0] at hsz
          exact hsz (by simp [dfltCluster])
        have hstep : enforceStep thr resolved (cls, acc) pe
            = (cls.set a.targetIndex
                (enforcedCluster thr (cls.getD a.targetIndex dfltCluster) pe.2 pe.1 a.targetIndex).1,
               acc ++ [(a.targetIndex,
                (enforcedCluster thr (cls.getD a.targetIndex dfltCluster) pe.2 pe.1 a.targetIndex).2)]) := by
          unfold enforceStep
          simp only [hget, hsz, if_neg, if_false]
        rw [hstep]
        have hagree2 : ∀ pf ∈ rest, ∀ b, mapGet pf.1 resolved = some b →
            (cls.set a.targetIndex
              (enforcedCluster thr (cls.getD a.targetIndex dfltCluster) pe.2 pe.1 a.targetIndex).1).getD
                b.targetIndex dfltCluster
              = clusters0.getD b.targetIndex dfltCluster := by
          intro pf hpf b hgf
          have hne : a.targetIndex ≠ b.targetIndex := hhead pf hpf a b hget hgf
          rw [getD_set_ne _ _ _ _ _ hne]
          exact hagree pf (List.mem_cons_of_mem _ hpf) b hgf
        have hres := ih
          (cls.set a.targetIndex
            (enforcedCluster thr (cls.getD a.targetIndex dfltCluster) pe.2 pe.1 a.targetIndex).1)
          (acc ++ [(a.targetIndex,
            (enforcedCluster thr (cls.getD a.targetIndex dfltCluster) pe.2 pe.1 a.targetIndex).2)])
          hagree2 htail (by rw [List.length_set]; exact hlen)
        have hentry : enforceEntry thr clusters0 resolved pe
            = some (a.targetIndex,
                (enforcedCluster thr (clusters0.getD a.targetIndex dfltCluster) pe.2 pe.1 a.targetIndex).2) := by
          unfold enforceEntry
          simp only [hget]
          rw [← hcur]
          simp only [hsz, if_neg, if_false]
        refine ⟨?_, ?_, ?_, ?_⟩
        · rw [hres.1, List.filterMap_cons, hentry, hcur]
          simp
        · rw [hres.2.1, List.length_set]
        · intro j hj
          have hja : a.targetIndex ≠ j := by
            rcases hj pe (List.mem_cons_self _ _) a hget with hlt | hne
            · rw [hcur] at hsz
              exact absurd hlt hsz
            · exact hne
          rw [hres.2.2.1 j (fun pf hpf => hj pf (List.mem_cons_of_mem _ hpf))]
          exact getD_set_ne _ _ _ _ _ hja
        · intro pf hpf b hgf hszb
          rcases List.mem_cons.mp hpf with rfl | hpf2
          · rw [hget] at hgf
            have hab := Option.some.inj hgf
            subst hab
            have huntouched : ∀ pg ∈ rest, ∀ c, mapGet pg.1 resolved = some c →
                (clusters0.getD c.targetIndex dfltCluster).members.length < 16 ∨
                  c.targetIndex ≠ a.targetIndex := by
              intro pg hpg c hgc
              exact Or.inr (fun hc => (hhead pg hpg a c hget hgc) hc.symm)
            rw [hres.2.2.1 a.targetIndex huntouched]
            rw [getD_set_self _ _ _ _ htlt, hcur]
          · exact hres.2.2.2 pf hpf2 b hgf hszb

/-- Distinct frozen keys look up to assignments with distinct targets. -/
theorem frozen_pairwise_targets (frozen : FrozenMap) (clusters : List Cluster)
    (hkeys : (frozen.map Prod.fst).Nodup) :
    frozen.Pairwise (fun pe pf => ∀ a b,
      mapGet pe.1 (resolvedAssignments frozen clusters) = some a →
      mapGet pf.1 (resolvedAssignments frozen clusters) = some b →
      a.targetIndex ≠ b.targetIndex) := by
  have hkp : frozen.Pairwise (fun pe pf => pe.1 ≠ pf.1) := List.pairwise_map.mp hkeys
  have hnt := (assignGreedy_invariants (sortAssigns (discover frozen clusters))).2.2.1
  refine hkp.imp ?_
  intro pe pf hne a b hga hgb hteq
  have hma : (pe.1, a) ∈ resolvedAssignments frozen clusters := mapGet_mem _ _ _ hga
  have hmb : (pf.1, b) ∈ resolvedAssignments frozen clusters := mapGet_mem _ _ _ hgb
  have heq := List.inj_on_of_nodup_map hnt hma hmb hteq
  have hfst := congrArg Prod.fst heq
  exact hne hfst

/-- Full characterization of `applyFrozenConstraints` against the original
pass: the new frozen map is the `filterMap` of `enforceEntry` over the old
map, the cluster list keeps its length, and every accepted large-enough
target carries `enforcedCluster` of the original cluster. -/
theorem applyFrozenConstraints_spec (thr : ℚ) (frozen : FrozenMap) (clusters : List Cluster)
    (hkeys : (frozen.map Prod.fst).Nodup) :
    ((applyFrozenConstraints thr frozen clusters).2
      = frozen.filterMap (enforceEntry thr clusters (resolvedAssignments frozen clusters))) ∧
    ((applyFrozenConstraints thr frozen clusters).1.length = clusters.length) ∧
    (∀ pe ∈ frozen, ∀ a, mapGet pe.1 (resolvedAssignments frozen clusters) = some a →
      16 ≤ (clusters.getD a.targetIndex dfltCluster).members.length →
      (applyFrozenConstraints thr frozen clusters).1.getD a.targetIndex dfltCluster
        = (enforcedCluster thr (clusters.getD a.targetIndex dfltCluster) pe.2 pe.1 a.targetIndex).1) := by
  by_cases hne : frozen = []
  · subst hne
    refine ⟨by simp [applyFrozenConstraints], by simp [applyFrozenConstraints], ?_⟩
    intro pe hpe
    simp at hpe
  · have hpairs := frozen_pairwise_targets frozen clusters hkeys
    have haux := enforceAll_aux thr (resolvedAssignments frozen clusters) clusters frozen clusters []
      (fun pe _ a _ => rfl) hpairs rfl
    have happ : applyFrozenConstraints thr frozen clusters
        = frozen.foldl (enforceStep thr (resolvedAssignments frozen clusters)) (clusters, []) := by
      unfold applyFrozenConstraints enforceAll
      rw [if_neg hne]
    rw [happ]
    refine ⟨?_, haux.2.1, haux.2.2.2⟩
    rw [haux.1]
    simp

/-- C1: in `applyFrozenConstraints`, the candidate pairs are exactly those
with at least 8 members among the preferred paths; candidates are processed
as a permutation of the discovery output sorted by descending match count;
accepted assignments claim each `oldIndex` and each `targetIndex` at most
once and come from the sorted candidate list; and the resulting frozen map
is the `filterMap` of `enforceEntry` over the old entries, so every entry
with no accepted candidate is absent from it (auto-unfrozen). -/
theorem C1_freeze_apply (thr : ℚ) (frozen : FrozenMap) (clusters : List Cluster)
    (hkeys : (frozen.map Prod.fst).Nodup) :
    freezeApplyContract thr frozen clusters := by
  have inv := assignGreedy_invariants (sortAssigns (discover frozen clusters))
  refine ⟨discover_mem frozen clusters, stableSort_perm _ _, ?_, inv.2.1, inv.2.2.1,
    inv.2.2.2, (applyFrozenConstraints_spec thr frozen clusters hkeys).1⟩
  have hsorted := stableSort_pairwise (fun a b : Assign => decide (b.matchCount ≤ a.matchCount))
    (by intro a b
        rcases Nat.le_total b.matchCount a.matchCount with h | h
        · exact Or.inl (decide_eq_true h)
        · exact Or.inr (decide_eq_true h))
    (by intro a b c h1 h2
        exact decide_eq_true (Nat.le_trans (of_decide_eq_true h2) (of_decide_eq_true h1)))
    (discover frozen clusters)
  exact hsorted.imp (fun h => of_decide_eq_true h)

/-- C1 witness: the contract at a concrete one-entry frozen map and
one-cluster pass with 8 shared paths. -/
theorem C1_witness :
    (([(0, frozenEntryEx)] : FrozenMap).map Prod.fst).Nodup ∧
    freezeApplyContract (3/20) [(0, frozenEntryEx)] [frozenClusterEx] :=
  ⟨by decide, C1_freeze_apply (3/20) [(0, frozenEntryEx)] [frozenClusterEx] (by decide)⟩

/-! ## Counting representatives built by the freeze enforcement -/

theorem addRepFold_length (l : List Member) (flag : Bool) :
    ∀ (acc : List Member), acc.length ≤ 16 →
      (l.foldl (fun st m => addRep st m flag) acc).length = min 16 (acc.length + l.length) := by
  induction l with
  | nil =>
    intro acc h
    simp only [List.foldl_nil, List.length_nil, Nat.add_zero]
    exact (Nat.min_eq_right h).symm
  | cons m xs ih =>
    intro acc h
    rw [List.foldl_cons]
    by_cases hlt : acc.length < 16
    · have hstep : addRep acc m flag = acc ++ [{ m with isReplacement := flag }] := by
        unfold addRep
        rw [if_pos hlt]
      rw [hstep, ih _ (by simp only [List.length_append, List.length_singleton]; omega)]
      simp only [List.length_append, List.length_singleton, List.length_cons, List.length_nil]
      omega
    · have h16 : acc.length = 16 := Nat.le_antisymm h (Nat.le_of_not_lt hlt)
      have hstep : addRep acc m flag = acc := by
        unfold addRep
        rw [if_neg hlt]
      rw [hstep, ih _ h, h16]
      simp only [List.length_cons]
      omega

theorem addRepFold_paths (l : List Member) (flag : Bool) :
    ∀ (acc : List Member),
      (l.foldl (fun st m => addRep st m flag) acc).map (fun r => r.path)
        = acc.map (fun r => r.path) ++ ((l.map (fun r => r.path)).take (16 - acc.length)) := by
  induction l with
  | nil => intro acc; simp
  | cons m xs ih =>
    intro acc
    rw [List.foldl_cons]
    by_cases hlt : acc.length < 16
    · have hstep : addRep acc m flag = acc ++ [{ m with isReplacement := flag }] := by
        unfold addRep
        rw [if_pos hlt]
      rw [hstep, ih]
      have h1 : (16 - acc.length) = (16 - (acc ++ [{ m with isReplacement := flag }]).length) + 1 := by
        simp only [List.length_append, List.length_singleton]
        omega
      rw [h1]
      simp [List.take_succ_cons]
    · have hstep : addRep acc m flag = acc := by
        unfold addRep
        rw [if_neg hlt]
      rw [hstep, ih]
      have h0 : 16 - acc.length = 0 := by omega
      rw [h0]
      simp

theorem selectClosestToCentroid_nodup (members : List Member) (centroid : List ℚ)
    (limit : Nat) (thr : ℚ) (hnd : members.Nodup) :
    (selectClosestToCentroid members centroid limit thr).Nodup := by
  by_cases h : members = []
  · simp [selectClosestToCentroid, h]
  · rw [selectClosestToCentroid_eq members centroid limit thr h]
    rcases greedyPick_shape limit thr
      (stableSort (fun a b => decide (a.2 ≤ b.2))
        (members.map (fun m => (m, cosineDistance m.embedding centroid)))) [] with ⟨sub, heq, hsub⟩
    rw [heq, List.nil_append]
    have hpm : ((stableSort (fun a b => decide (a.2 ≤ b.2))
        (members.map (fun m => (m, cosineDistance m.embedding centroid)))).map
          (fun p => p.1)).Perm members := by
      have h1 := (stableSort_perm (fun a b : Member × ℚ => decide (a.2 ≤ b.2))
        (members.map (fun m => (m, cosineDistance m.embedding centroid)))).map (fun p => p.1)
      rw [List.map_map] at h1
      have h2 : members.map ((fun p : Member × ℚ => p.1) ∘
          (fun m => (m, cosineDistance m.embedding centroid))) = members := by
        rw [show ((fun p : Member × ℚ => p.1) ∘
          (fun m => (m, cosineDistance m.embedding centroid))) = fun m => m from rfl]
        exact List.map_id' members
      rw [h2] at h1
      exact h1
    exact hsub.nodup (hpm.nodup_iff.mpr hnd)

theorem length_filter_three (p q r : Member → Bool) :
    ∀ (l : List Member),
      (∀ x ∈ l, r x = (!(p x) && !(q x))) →
      (∀ x ∈ l, q x = true → p x = false) →
      (l.filter p).length + (l.filter q).length + (l.filter r).length = l.length := by
  intro l
  induction l with
  | nil => intro _ _; rfl
  | cons x xs ih =>
    intro hr hq
    have hrx := hr x (List.mem_cons_self _ _)
    have hqx := hq x (List.mem_cons_self _ _)
    have ih2 := ih (fun y hy => hr y (List.mem_cons_of_mem _ hy))
      (fun y hy => hq y (List.mem_cons_of_mem _ hy))
    by_cases hp : p x = true
    · have hq2 : q x = false := by
        cases hqv : q x
        · rfl
        · rw [hqx hqv] at hp
          cases hp
      have hr2 : r x = false := by rw [hrx, hp, hq2]; rfl
      simp [List.filter_cons, hp, hq2, hr2]
      omega
    · have hp2 : p x = false := Bool.eq_false_iff.mpr hp
      by_cases hq2 : q x = true
      · have hr2 : r x = false := by rw [hrx, hp2, hq2]; rfl
        simp [List.filter_cons, hp2, hq2, hr2]
        omega
      · have hq3 : q x = false := Bool.eq_false_iff.mpr hq2
        have hr2 : r x = true := by rw [hrx, hp2, hq3]; rfl
        simp [List.filter_cons, hp2, hq3, hr2]
        omega

theorem path_mem_filter_paths (members : List Member)
    (hnd : (members.map (fun r => r.path)).Nodup) (pred : Member → Bool)
    (m : Member) (hm : m ∈ members) :
    (m.path ∈ (members.filter pred).map (fun r => r.path)) ↔ pred m = true := by
  constructor
  · intro h
    rcases List.mem_map.mp h with ⟨x, hx, hxp⟩
    rcases List.mem_filter.mp hx with ⟨hx2, hpred⟩
    have hxm : x = m := List.inj_on_of_nodup_map hnd hx2 hm hxp
    rw [← hxm]
    exact hpred
  · intro h
    exact List.mem_map.mpr ⟨m, List.mem_filter.mpr ⟨hm, h⟩, rfl⟩

theorem repsPhaseA_length (c : Cluster) (e : FrozenEntry) :
    (repsPhaseA c e).length = min 16 (originalsPresent c e).length := by
  unfold repsPhaseA
  rw [addRepFold_length _ _ [] (by simp)]
  simp

theorem repsPhaseB_length (thr : ℚ) (c : Cluster) (e : FrozenEntry)
    (hnd : (c.members.map (fun r => r.path)).Nodup)
    (hpw : ∀ x ∈ c.members, ∀ y ∈ c.members, x ≠ y →
      thr ≤ cosineDistance x.embedding y.embedding) :
    (repsPhaseB thr c e).length
      = min 16 ((originalsPresent c e).length + (previousFillersPresent c e).length) := by
  have hmnd : c.members.Nodup := List.Nodup.of_map _ hnd
  have hlA := repsPhaseA_length c e
  unfold repsPhaseB
  by_cases hA : (repsPhaseA c e).length < 16
  · rw [if_pos hA]
    have haLT : (originalsPresent c e).length < 16 := by
      rw [hlA] at hA
      omega
    have haEq : (repsPhaseA c e).length = (originalsPresent c e).length := by
      rw [hlA]
      omega
    have hBnd : (previousFillersPresent c e).Nodup := hmnd.filter _
    have hBpw : ∀ x ∈ previousFillersPresent c e, ∀ y ∈ previousFillersPresent c e,
        x ≠ y → thr ≤ cosineDistance x.embedding y.embedding := by
      intro x hx y hy hxy
      exact hpw x (List.mem_filter.mp hx).1 y (List.mem_filter.mp hy).1 hxy
    have hsel := selectClosestToCentroid_full_length (previousFillersPresent c e) c.centroid
      (16 - (repsPhaseA c e).length) thr hBnd hBpw
    rw [addRepFold_length _ _ _ (by rw [hlA]; omega), hsel, haEq]
    omega
  · rw [if_neg hA, hlA]
    rw [hlA] at hA
    omega

theorem enforcedReps_length (thr : ℚ) (c : Cluster) (e : FrozenEntry)
    (hsz : 16 ≤ c.members.length)
    (hnd : (c.members.map (fun r => r.path)).Nodup)
    (hpw : ∀ x ∈ c.members, ∀ y ∈ c.members, x ≠ y →
      thr ≤ cosineDistance x.embedding y.embedding) :
    (enforcedReps thr c e).length = 16 := by
  have hmnd : c.members.Nodup := List.Nodup.of_map _ hnd
  have hlA := repsPhaseA_length c e
  have hlB := repsPhaseB_length thr c e hnd hpw
  unfold enforcedReps
  by_cases hB : (repsPhaseB thr c e).length < 16
  · rw [if_pos hB]
    have hab : (originalsPresent c e).length + (previousFillersPresent c e).length < 16 := by
      rw [hlB] at hB
      omega
    have hlenB : (repsPhaseB thr c e).length
        = (originalsPresent c e).length + (previousFillersPresent c e).length := by
      rw [hlB]
      omega
    have haLT : (originalsPresent c e).length < 16 := by omega
    -- the used paths after phase B are exactly the paths of the originals
    -- present followed by the paths of the selected previous fillers
    have hBnd : (previousFillersPresent c e).Nodup := hmnd.filter _
    have hBpw : ∀ x ∈ previousFillersPresent c e, ∀ y ∈ previousFillersPresent c e,
        x ≠ y → thr ≤ cosineDistance x.embedding y.embedding := by
      intro x hx y hy hxy
      exact hpw x (List.mem_filter.mp hx).1 y (List.mem_filter.mp hy).1 hxy
    have haEq : (repsPhaseA c e).length = (originalsPresent c e).length := by
      rw [hlA]
      omega
    have hselB := selectClosestToCentroid_full_length (previousFillersPresent c e) c.centroid
      (16 - (repsPhaseA c e).length) thr hBnd hBpw
    have hselB_len : (selectClosestToCentroid (previousFillersPresent c e) c.centroid
        (16 - (repsPhaseA c e).length) thr).length = (previousFillersPresent c e).length := by
      rw [hselB, haEq]
      omega
    have hselB_sub : ∀ x ∈ selectClosestToCentroid (previousFillersPresent c e) c.centroid
        (16 - (repsPhaseA c e).length) thr, x ∈ previousFillersPresent c e :=
      selectClosestToCentroid_subset _ _ _ _
    have hselB_nodup := selectClosestToCentroid_nodup (previousFillersPresent c e) c.centroid
      (16 - (repsPhaseA c e).length) thr hBnd
    have hselB_perm : (selectClosestToCentroid (previousFillersPresent c e) c.centroid
        (16 - (repsPhaseA c e).length) thr).Perm (previousFillersPresent c e) :=
      (hselB_nodup.subperm (fun x hx => hselB_sub x hx)).perm_of_length_le
        (by rw [hselB_len])
    have hAlen_paths : ((originalsPresent c e).map (fun r => r.path)).length ≤ 16 := by
      rw [List.length_map]
      omega
    have hApaths : (repsPhaseA c e).map (fun r => r.path)
        = (originalsPresent c e).map (fun r => r.path) := by
      unfold repsPhaseA
      rw [addRepFold_paths]
      simp only [List.map_nil, List.nil_append, List.length_nil, Nat.sub_zero]
      exact List.take_of_length_le hAlen_paths
    have hBpaths : (repsPhaseB thr c e).map (fun r => r.path)
        = (originalsPresent c e).map (fun r => r.path)
          ++ (selectClosestToCentroid (previousFillersPresent c e) c.centroid
              (16 - (repsPhaseA c e).length) thr).map (fun r => r.path) := by
      unfold repsPhaseB
      rw [if_pos (by rw [hlA]; omega)]
      rw [addRepFold_paths, hApaths]
      congr 1
      refine List.take_of_length_le ?_
      rw [List.length_map, hselB_len, haEq]
      omega
    -- the pointwise classification of the "others" filter
    have hclass : ∀ m ∈ c.members,
        (fun m : Member => decide (m.path ∉ (repsPhaseB thr c e).map (fun r => r.path))) m
          = (!((fun m : Member => decide (m.path ∈ e.originalPaths)) m)
             && !((fun m : Member => decide (m.path ∈ e.preferredPaths ∧ m.path ∉ e.originalPaths)) m)) := by
      intro m hm
      have hiff : (m.path ∈ (repsPhaseB thr c e).map (fun r => r.path))
          ↔ (m.path ∈ e.originalPaths ∨ (m.path ∈ e.preferredPaths ∧ m.path ∉ e.originalPaths)) := by
        rw [hBpaths, List.mem_append]
        constructor
        · intro h
          rcases h with h | h
          · exact Or.inl (of_decide_eq_true
              ((path_mem_filter_paths c.members hnd _ m hm).mp h))
          · have h2 : m.path ∈ (previousFillersPresent c e).map (fun r => r.path) :=
              (hselB_perm.map (fun r => r.path)).mem_iff.mp h
            exact Or.inr (of_decide_eq_true
              ((path_mem_filter_paths c.members hnd _ m hm).mp h2))
        · intro h
          rcases h with h | h
          · exact Or.inl ((path_mem_filter_paths c.members hnd _ m hm).mpr
              (decide_eq_true h))
          · refine Or.inr ?_
            have h2 : m.path ∈ (previousFillersPresent c e).map (fun r => r.path) :=
              (path_mem_filter_paths c.members hnd _ m hm).mpr (decide_eq_true h)
            exact (hselB_perm.map (fun r => r.path)).mem_iff.mpr h2
      simp only [decide_not]
      rw [← Bool.not_or, ← Bool.decide_or]
      have hdd : decide (m.path ∈ List.map (fun r => r.path) (repsPhaseB thr c e))
          = decide (m.path ∈ e.originalPaths ∨ m.path ∈ e.preferredPaths ∧ m.path ∉ e.originalPaths) :=
        decide_eq_decide.mpr hiff
      rw [hdd]
    have htri := length_filter_three
      (fun m : Member => decide (m.path ∈ e.originalPaths))
      (fun m : Member => decide (m.path ∈ e.preferredPaths ∧ m.path ∉ e.originalPaths))
      (fun m : Member => decide (m.path ∉ (repsPhaseB thr c e).map (fun r => r.path)))
      c.members hclass
      (by intro x _ hq
          rcases of_decide_eq_true hq with ⟨_, hno⟩
          exact decide_eq_false hno)
    have hothers_len : (c.members.filter (fun m =>
        decide (m.path ∉ (repsPhaseB thr c e).map (fun r => r.path)))).length
        = c.members.length - (originalsPresent c e).length
          - (previousFillersPresent c e).length := by
      unfold originalsPresent previousFillersPresent
      omega
    have hond : (c.members.filter (fun m =>
        decide (m.path ∉ (repsPhaseB thr c e).map (fun r => r.path)))).Nodup := hmnd.filter _
    have hopw : ∀ x ∈ c.members.filter (fun m =>
          decide (m.path ∉ (repsPhaseB thr c e).map (fun r => r.path))),
        ∀ y ∈ c.members.filter (fun m =>
          decide (m.path ∉ (repsPhaseB thr c e).map (fun r => r.path))),
        x ≠ y → thr ≤ cosineDistance x.embedding y.embedding := by
      intro x hx y hy hxy
      exact hpw x (List.mem_filter.mp hx).1 y (List.mem_filter.mp hy).1 hxy
    have hselC := selectClosestToCentroid_full_length _ c.centroid
      (16 - (repsPhaseB thr c e).length) thr hond hopw
    rw [addRepFold_length _ _ _ (by omega), hselC, hothers_len, hlenB]
    omega
  · rw [if_neg hB, hlB]
    rw [hlB] at hB
    omega

/-- C3 (amended): a frozen cluster that survives `apply` (accepted
assignment, target with at least 16 members) ends up with exactly 16
representatives provided the dedup policy rejects no candidate — in
particular whenever all pairs of distinct members are at cosine distance at
least the threshold (with distinct member paths); with near-duplicate
members the rebuilt sequence can be shorter than 16. -/
theorem C3_frozen_representative_count (thr : ℚ) (frozen : FrozenMap) (clusters : List Cluster)
    (pe : Nat × FrozenEntry) (a : Assign)
    (hkeys : (frozen.map Prod.fst).Nodup)
    (hmem : pe ∈ frozen)
    (hacc : mapGet pe.1 (resolvedAssignments frozen clusters) = some a)
    (hsz : 16 ≤ (clusters.getD a.targetIndex dfltCluster).members.length)
    (hnd : ((clusters.getD a.targetIndex dfltCluster).members.map (fun r => r.path)).Nodup)
    (hpw : ∀ x ∈ (clusters.getD a.targetIndex dfltCluster).members,
           ∀ y ∈ (clusters.getD a.targetIndex dfltCluster).members,
           x ≠ y → thr ≤ cosineDistance x.embedding y.embedding) :
    ((applyFrozenConstraints thr frozen clusters).1.getD a.targetIndex dfltCluster).representatives.length
      = 16 := by
  have hchar := (applyFrozenConstraints_spec thr frozen clusters hkeys).2.2 pe hmem a hacc hsz
  rw [hchar]
  show (enforcedReps thr (clusters.getD a.targetIndex dfltCluster) pe.2).length = 16
  exact enforcedReps_length thr _ _ hsz hnd hpw

/-- C3 counterexample: a frozen entry matched with 8 surviving originals in
a 16-member cluster whose other 8 members are mutual near-duplicates: the
entry survives `apply` (the cluster is marked frozen and re-keyed), but the
rebuilt representative list has 9 elements, not 16. -/
theorem C3_counterexample :
    ((applyFrozenConstraints (3/20) [(0, frozenEntryEx)] [frozenClusterEx]).1.getD 0 dfltCluster).isFrozen
        = true
    ∧ (mapGet 0 (applyFrozenConstraints (3/20) [(0, frozenEntryEx)] [frozenClusterEx]).2).isSome
        = true
    ∧ ((applyFrozenConstraints (3/20) [(0, frozenEntryEx)] [frozenClusterEx]).1.getD 0 dfltCluster).representatives.length
        ≠ 16 := by
  with_unfolding_all decide

/-- C3 witness: with threshold 0 nothing is dedup-rejected, and the
surviving frozen cluster keeps exactly 16 representatives. -/
theorem C3_witness :
    ((applyFrozenConstraints 0 [(0, dupEntryEx)] [dupClusterEx]).1.getD 0 dfltCluster).representatives.length
      = 16 :=
  C3_frozen_representative_count 0 [(0, dupEntryEx)] [dupClusterEx] (0, dupEntryEx)
    ⟨0, 0, 16, dupEntryEx⟩ (by decide) (by decide)
    (by with_unfolding_all decide) (by with_unfolding_all decide)
    (by with_unfolding_all decide) (by with_unfolding_all decide)

/-- C7: for an accepted freeze assignment that survives `apply`, the
resulting cluster's `driftCount` equals `|originalPaths|` minus the number
of members of the matched cluster whose path is in `originalPaths`; the
surviving entry keeps its `originalPaths` unchanged; and at freeze time the
`originalPaths` are recorded as the cluster's current 16 representative
paths (equal to the initial `preferredPaths`). -/
theorem C7_drift_count (thr : ℚ) (frozen : FrozenMap) (clusters : List Cluster)
    (pe : Nat × FrozenEntry) (a : Assign)
    (hkeys : (frozen.map Prod.fst).Nodup)
    (hmem : pe ∈ frozen)
    (hacc : mapGet pe.1 (resolvedAssignments frozen clusters) = some a)
    (hsz : 16 ≤ (clusters.getD a.targetIndex dfltCluster).members.length) :
    (((applyFrozenConstraints thr frozen clusters).1.getD a.targetIndex dfltCluster).driftCount
      = (pe.2.originalPaths.card : Int)
        - (((clusters.getD a.targetIndex dfltCluster).members.filter
            (fun m => decide (m.path ∈ pe.2.originalPaths))).length : Int))
    ∧ (∃ e2, (a.targetIndex, e2) ∈ (applyFrozenConstraints thr frozen clusters).2 ∧
        e2.originalPaths = pe.2.originalPaths)
    ∧ (∀ (s : AppState) (i : Nat) (c : Cluster),
        s.currentClusters.get? i = some c →
        16 ≤ c.representatives.length →
        mapGet i (handleFreezeCluster s i).frozenClusters
          = some { preferredPaths := (c.representatives.map (fun r => r.path)).toFinset,
                   originalPaths := (c.representatives.map (fun r => r.path)).toFinset,
                   initialIndex := i }) := by
  have hspec := applyFrozenConstraints_spec thr frozen clusters hkeys
  have hchar := hspec.2.2 pe hmem a hacc hsz
  refine ⟨?_, ?_, ?_⟩
  · rw [hchar]
    rfl
  · refine ⟨(enforcedCluster thr (clusters.getD a.targetIndex dfltCluster) pe.2 pe.1 a.targetIndex).2,
      ?_, rfl⟩
    rw [hspec.1]
    refine List.mem_filterMap.mpr ⟨pe, hmem, ?_⟩
    unfold enforceEntry
    simp only [hacc]
    rw [if_neg (Nat.not_lt.mpr hsz)]
  · intro s i c hc hlen
    unfold handleFreezeCluster
    simp only [hc]
    rw [if_neg (Nat.not_lt.mpr hlen)]
    exact mapGet_mapSet_self _ _ _

/-- C7 witness: the drift formula, the preserved `originalPaths`, and the
freeze-time recording, at concrete inputs. -/
theorem C7_witness :
    (((applyFrozenConstraints 0 [(0, dupEntryEx)] [dupClusterEx]).1.getD 0 dfltCluster).driftCount
      = (dupEntryEx.originalPaths.card : Int)
        - ((([dupClusterEx].getD 0 dfltCluster).members.filter
            (fun m => decide (m.path ∈ dupEntryEx.originalPaths))).length : Int))
    ∧ (∃ e2, (0, e2) ∈ (applyFrozenConstraints 0 [(0, dupEntryEx)] [dupClusterEx]).2 ∧
        e2.originalPaths = dupEntryEx.originalPaths)
    ∧ mapGet 0 (handleFreezeCluster freezeStateEx 0).frozenClusters
        = some { preferredPaths := (dupRecords.map (fun r => r.path)).toFinset,
                 originalPaths := (dupRecords.map (fun r => r.path)).toFinset,
                 initialIndex := 0 } := by
  have h := C7_drift_count 0 [(0, dupEntryEx)] [dupClusterEx] (0, dupEntryEx)
    ⟨0, 0, 16, dupEntryEx⟩ (by decide) (by decide)
    (by with_unfolding_all decide) (by with_unfolding_all decide)
  refine ⟨h.1, h.2.1, ?_⟩
  exact h.2.2 freezeStateEx 0 { dupClusterEx with representatives := dupRecords }
    (by with_unfolding_all decide) (by with_unfolding_all decide)

/-- `refreshClusters` never touches the exclusion set. -/
theorem refreshClusters_excludedPaths (s : AppState) :
    (refreshClusters s).excludedPaths = s.excludedPaths := by
  unfold refreshClusters
  split
  · rfl
  · split <;> rfl

/-- The unfreeze rewrite clears the frozen flag. -/
theorem unfrozenCluster_isFrozen (thr : ℚ) (c : Cluster) :
    (unfrozenCluster thr c).isFrozen = false := by
  simp only [unfrozenCluster]
  split <;> rfl

/-- Characterization of `handleUnfreezeCluster` when the entry exists and
the index is in range. -/
theorem handleUnfreezeCluster_eq (s : AppState) (i : Nat) (c : Cluster)
    (hent : (mapGet i s.frozenClusters).isSome = true)
    (hc : s.currentClusters.get? i = some c) :
    handleUnfreezeCluster s i =
      { s with frozenClusters := mapDelete s.frozenClusters i,
               currentClusters := s.currentClusters.set i (unfrozenCluster s.threshold c) } := by
  unfold handleUnfreezeCluster
  rw [if_pos hent]
  have hc2 : ({ s with frozenClusters := mapDelete s.frozenClusters i } : AppState).currentClusters.get? i
      = some c := hc
  simp only [hc2]

/-- A successful exclusion adds exactly the path to the exclusion set. -/
theorem handleExclude_success (s : AppState) (p : String)
    (h : s.currentClusters.any (fun c =>
        c.isFrozen && c.representatives.any (fun r => decide (r.path = p))) = false) :
    (handleExclude s p).2 = ExcludeResult.success ∧
    (handleExclude s p).1.excludedPaths = insert p s.excludedPaths := by
  unfold handleExclude
  rw [if_neg (by rw [h]; exact Bool.false_ne_true)]
  exact ⟨rfl, refreshClusters_excludedPaths _⟩

/-- C4: if path `p` is a current representative of the frozen cluster at
index `i` (and no other cluster is a frozen holder of `p`), then
`handleExclude p` returns the state entirely unchanged (exclusion set,
manifest and clusters included) with the `frozenRepresentative` rejection;
after `handleUnfreezeCluster i`, the same exclusion succeeds and adds `p`
to the exclusion set. -/
theorem C4_frozen_rep_exclusion (s : AppState) (i : Nat) (c : Cluster) (p : String)
    (hc : s.currentClusters.get? i = some c)
    (hf : c.isFrozen = true)
    (hp : c.representatives.any (fun r => decide (r.path = p)) = true)
    (hent : (mapGet i s.frozenClusters).isSome = true)
    (honly : ∀ j, j ≠ i → ∀ cj, s.currentClusters.get? j = some cj →
        (cj.isFrozen && cj.representatives.any (fun r => decide (r.path = p))) = false) :
    handleExclude s p = (s, ExcludeResult.frozenRepresentative)
    ∧ (handleExclude (handleUnfreezeCluster s i) p).2 = ExcludeResult.success
    ∧ (handleExclude (handleUnfreezeCluster s i) p).1.excludedPaths
        = insert p s.excludedPaths := by
  have hmem : c ∈ s.currentClusters := List.get?_mem hc
  have hany : s.currentClusters.any (fun c' =>
      c'.isFrozen && c'.representatives.any (fun r => decide (r.path = p))) = true := by
    rw [List.any_eq_true]
    exact ⟨c, hmem, by rw [hf, hp]; rfl⟩
  have hs' := handleUnfreezeCluster_eq s i c hent hc
  have hfro : ∀ x ∈ (handleUnfreezeCluster s i).currentClusters,
      (x.isFrozen && x.representatives.any (fun r => decide (r.path = p))) = false := by
    rw [hs']
    intro x hx
    rcases List.mem_iff_get?.mp hx with ⟨j, hj⟩
    rw [List.get?_eq_getElem?] at hj
    by_cases hji : j = i
    · subst hji
      have hlt : j < s.currentClusters.length := by
        rcases List.get?_eq_some.mp hc with ⟨hlt, _⟩
        exact hlt
      rw [List.getElem?_set_self hlt] at hj
      rw [← Option.some.inj hj, unfrozenCluster_isFrozen]
      rfl
    · rw [List.getElem?_set_ne (Ne.symm hji)] at hj
      exact honly j hji x (by rw [List.get?_eq_getElem?]; exact hj)
  have hany2 : (handleUnfreezeCluster s i).currentClusters.any (fun c' =>
      c'.isFrozen && c'.representatives.any (fun r => decide (r.path = p))) = false := by
    rw [List.any_eq_false]
    intro x hx h
    rw [hfro x hx] at h
    exact Bool.false_ne_true h
  have hsucc := handleExclude_success (handleUnfreezeCluster s i) p hany2
  refine ⟨?_, hsucc.1, ?_⟩
  · unfold handleExclude
    rw [if_pos hany]
  · rw [hsucc.2, hs']

/-- C4 witness: excluding the frozen representative path is rejected with
the state unchanged, and succeeds after the unfreeze. -/
theorem C4_witness :
    handleExclude appStateEx "a" = (appStateEx, ExcludeResult.frozenRepresentative)
    ∧ (handleExclude (handleUnfreezeCluster appStateEx 0) "a").2 = ExcludeResult.success
    ∧ (handleExclude (handleUnfreezeCluster appStateEx 0) "a").1.excludedPaths
        = insert "a" appStateEx.excludedPaths :=
  C4_frozen_rep_exclusion appStateEx 0 appClusterEx "a" rfl rfl (by decide) (by decide)
    (by
      intro j hj cj hcj
      cases j with
      | zero => exact absurd rfl hj
      | succ n => simp [appStateEx, appClusterEx] at hcj)

/-- With a pass in flight, a recluster request only sets the pending flag. -/
theorem refreshClusters_busy (t : AppState) (ht : t.isClustering = true) :
    refreshClusters t = { t with pendingRecluster := true } := by
  unfold refreshClusters
  rw [if_pos ht]

/-- With no pass in flight and valid data, a recluster request starts
exactly one pass. -/
theorem refreshClusters_start (t : AppState) (ht : t.isClustering = false)
    (hv : validEmbeddings t ≠ []) :
    refreshClusters t
      = { t with isClustering := true, passesStarted := t.passesStarted + 1 } := by
  unfold refreshClusters
  rw [if_neg (by rw [ht]; exact Bool.false_ne_true), if_neg hv]

/-- Completion with the pending flag set clears it and starts exactly one
follow-up pass. -/
theorem handleClusterResult_pending (t : AppState) (r : ClusterSet)
    (ht : t.pendingRecluster = true) (hvt : validEmbeddings t ≠ []) :
    (handleClusterResult t r).pendingRecluster = false ∧
    (handleClusterResult t r).isClustering = true ∧
    (handleClusterResult t r).passesStarted = t.passesStarted + 1 := by
  simp only [handleClusterResult]
  rw [if_pos ht]
  rw [refreshClusters_start]
  · exact ⟨rfl, rfl, rfl⟩
  · rfl
  · exact hvt

/-- C8: any positive number of recluster requests issued while a pass is in
flight leaves the state exactly at "pending flag set" (in particular no new
pass is started: `passesStarted` is unchanged); completion of the in-flight
pass then clears the flag and issues exactly one follow-up pass; and a
completion without the pending flag issues none. -/
theorem C8_recluster_coalescing (s : AppState) (n : Nat) (r : ClusterSet)
    (hin : s.isClustering = true) (hn : 0 < n)
    (hv : validEmbeddings s ≠ []) :
    (refreshClusters^[n] s = { s with pendingRecluster := true })
    ∧ (handleClusterResult (refreshClusters^[n] s) r).pendingRecluster = false
    ∧ (handleClusterResult (refreshClusters^[n] s) r).isClustering = true
    ∧ (handleClusterResult (refreshClusters^[n] s) r).passesStarted = s.passesStarted + 1
    ∧ (s.pendingRecluster = false →
        (handleClusterResult s r).passesStarted = s.passesStarted) := by
  have hA : refreshClusters^[n] s = { s with pendingRecluster := true } := by
    obtain ⟨m, rfl⟩ : ∃ m, n = m + 1 := ⟨n - 1, by omega⟩
    clear hn
    induction m with
    | zero =>
      rw [Function.iterate_one]
      exact refreshClusters_busy s hin
    | succ k ih =>
      rw [Function.iterate_succ_apply', ih, refreshClusters_busy]
      exact hin
  have hB := handleClusterResult_pending { s with pendingRecluster := true } r rfl hv
  refine ⟨hA, ?_, ?_, ?_, ?_⟩
  · rw [hA]; exact hB.1
  · rw [hA]; exact hB.2.1
  · rw [hA]; exact hB.2.2
  · intro hpf
    simp only [handleClusterResult]
    rw [if_neg (by rw [hpf]; exact Bool.false_ne_true)]

/-- C8 witness: two requests during the in-flight pass collapse to one
pending flag, and the completion issues exactly one follow-up pass. -/
theorem C8_witness :
    (refreshClusters^[2] busyStateEx = { busyStateEx with pendingRecluster := true })
    ∧ (handleClusterResult (refreshClusters^[2] busyStateEx) ⟨[], []⟩).pendingRecluster = false
    ∧ (handleClusterResult (refreshClusters^[2] busyStateEx) ⟨[], []⟩).isClustering = true
    ∧ (handleClusterResult (refreshClusters^[2] busyStateEx) ⟨[], []⟩).passesStarted
        = busyStateEx.passesStarted + 1
    ∧ (busyStateEx.pendingRecluster = false →
        (handleClusterResult busyStateEx ⟨[], []⟩).passesStarted = busyStateEx.passesStarted) :=
  C8_recluster_coalescing busyStateEx 2 ⟨[], []⟩ rfl (by decide) (by decide)

/-- `refreshClusters` never changes the published clusters. -/
theorem refreshClusters_currentClusters (s : AppState) :
    (refreshClusters s).currentClusters = s.currentClusters := by
  unfold refreshClusters
  split
  · rfl
  · split <;> rfl

/-- `refreshClusters` never changes the loaded embeddings. -/
theorem refreshClusters_currentEmbeddings (s : AppState) :
    (refreshClusters s).currentEmbeddings = s.currentEmbeddings := by
  unfold refreshClusters
  split
  · rfl
  · split <;> rfl

/-- The rejection branch of `handleExclude` returns the state untouched. -/
theorem handleExclude_reject (s : AppState) (p : String)
    (h : s.currentClusters.any (fun c =>
        c.isFrozen && c.representatives.any (fun r => decide (r.path = p))) = true) :
    handleExclude s p = (s, ExcludeResult.frozenRepresentative) := by
  unfold handleExclude
  rw [if_pos h]

/-- `handleExclude` never changes the published clusters. -/
theorem handleExclude_currentClusters (s : AppState) (p : String) :
    (handleExclude s p).1.currentClusters = s.currentClusters := by
  unfold handleExclude
  split
  · rfl
  · exact refreshClusters_currentClusters _

/-- `handleExclude` never changes the loaded embeddings. -/
theorem handleExclude_currentEmbeddings (s : AppState) (p : String) :
    (handleExclude s p).1.currentEmbeddings = s.currentEmbeddings := by
  unfold handleExclude
  split
  · rfl
  · exact refreshClusters_currentEmbeddings _

/-- `handleRestore` removes exactly the path from the exclusion set. -/
theorem handleRestore_excludedPaths (s : AppState) (p : String) :
    (handleRestore s p).excludedPaths = s.excludedPaths.erase p := by
  unfold handleRestore
  exact refreshClusters_excludedPaths _

/-- `handleRestore` never changes the loaded embeddings. -/
theorem handleRestore_currentEmbeddings (s : AppState) (p : String) :
    (handleRestore s p).currentEmbeddings = s.currentEmbeddings := by
  unfold handleRestore
  exact refreshClusters_currentEmbeddings _

/-- The valid-record sequence depends only on the loaded embeddings and
the exclusion set. -/
theorem validEmbeddings_congr (a b : AppState)
    (he : a.currentEmbeddings = b.currentEmbeddings)
    (hx : a.excludedPaths = b.excludedPaths) :
    validEmbeddings a = validEmbeddings b := by
  unfold validEmbeddings
  rw [he, hx]

/-- C9: for a path not currently excluded, `exclude(p)` then `restore(p)`
restores the valid (non-excluded) record sequence element-for-element; and
for every path, repeating `exclude` or repeating `restore` leaves the
exclusion set where the first call put it (idempotence). -/
theorem C9_exclude_restore (s : AppState) (p q : String) (hnp : p ∉ s.excludedPaths) :
    validEmbeddings (handleRestore (handleExclude s p).1 p) = validEmbeddings s
    ∧ (handleExclude (handleExclude s q).1 q).1.excludedPaths
        = (handleExclude s q).1.excludedPaths
    ∧ (handleRestore (handleRestore s q) q).excludedPaths
        = (handleRestore s q).excludedPaths := by
  refine ⟨?_, ?_, ?_⟩
  · refine validEmbeddings_congr _ _ ?_ ?_
    · rw [handleRestore_currentEmbeddings, handleExclude_currentEmbeddings]
    · rw [handleRestore_excludedPaths]
      cases hcond : s.currentClusters.any (fun c =>
          c.isFrozen && c.representatives.any (fun r => decide (r.path = p))) with
      | true =>
        rw [handleExclude_reject s p hcond]
        exact Finset.erase_eq_of_not_mem hnp
      | false =>
        rw [(handleExclude_success s p hcond).2]
        exact Finset.erase_insert hnp
  · cases hcond : s.currentClusters.any (fun c =>
        c.isFrozen && c.representatives.any (fun r => decide (r.path = q))) with
    | true => simp [handleExclude_reject s q hcond]
    | false =>
      have hcond2 : (handleExclude s q).1.currentClusters.any (fun c =>
          c.isFrozen && c.representatives.any (fun r => decide (r.path = q))) = false := by
        rw [handleExclude_currentClusters]
        exact hcond
      rw [(handleExclude_success _ q hcond2).2, (handleExclude_success s q hcond).2]
      exact Finset.insert_idem q s.excludedPaths
  · rw [handleRestore_excludedPaths, handleRestore_excludedPaths]
    exact Finset.erase_idem

/-- C9 witness: the round trip and both idempotence laws at a concrete
state. -/
theorem C9_witness :
    validEmbeddings (handleRestore (handleExclude appStateEx "z").1 "z") = validEmbeddings appStateEx
    ∧ (handleExclude (handleExclude appStateEx "a").1 "a").1.excludedPaths
        = (handleExclude appStateEx "a").1.excludedPaths
    ∧ (handleRestore (handleRestore appStateEx "a") "a").excludedPaths
        = (handleRestore appStateEx "a").excludedPaths :=
  C9_exclude_restore appStateEx "z" "a" (by decide)

/-- The frame relation is reflexive. -/
theorem heapFrame_refl (h : Heap) : HeapFrame h h := ⟨le_refl _, fun _ _ => rfl⟩

/-- The frame relation is transitive. -/
theorem heapFrame_trans {h0 h1 h2 : Heap} (a : HeapFrame h0 h1) (b : HeapFrame h1 h2) :
    HeapFrame h0 h2 :=
  ⟨le_trans a.1 b.1, fun r hr => (b.2 r (lt_of_lt_of_le hr a.1)).trans (a.2 r hr)⟩

/-- Allocation preserves the frame and returns a reference outside the
original heap. -/
theorem heapFrame_alloc {h0 h : Heap} (hf : HeapFrame h0 h) (v : List ℚ) :
    HeapFrame h0 (allocVec h v).1 ∧ h0.length ≤ (allocVec h v).2 := by
  refine ⟨heapFrame_trans hf ⟨?_, ?_⟩, hf.1⟩
  · simp [allocVec]
  · intro r hr
    simp only [readVec, allocVec]
    rw [List.getD_append _ _ _ _ hr]

/-- Writing behind a reference outside the original heap preserves the
frame. -/
theorem heapFrame_write {h0 h : Heap} (hf : HeapFrame h0 h) (r : Nat) (v : List ℚ)
    (hr : h0.length ≤ r) : HeapFrame h0 (writeVec h r v) := by
  refine ⟨?_, ?_⟩
  · simp only [writeVec, List.length_set]
    exact hf.1
  · intro j hj
    have hne : r ≠ j := by omega
    simp only [readVec, writeVec]
    rw [getD_set_ne _ _ _ _ _ hne]
    exact hf.2 j hj

/-- A fold whose step appends one reference grows the reference list by
the input length. -/
theorem foldl_mid_length_add {τ₁ τ₂ : Type} (g : Heap × List Nat × τ₂ → τ₁ → Heap × List Nat × τ₂)
    (hg : ∀ st x, (g st x).2.1.length = st.2.1.length + 1) :
    ∀ (l : List τ₁) (st : Heap × List Nat × τ₂),
      (l.foldl g st).2.1.length = st.2.1.length + l.length := by
  intro l
  induction l with
  | nil => intro st; simp
  | cons x xs ih =>
    intro st
    rw [List.foldl_cons, ih, hg]
    simp [Nat.add_assoc, Nat.add_comm 1 xs.length]

/-- The warm-start deep copy preserves the original arrays and returns one
fresh reference per previous centroid. -/
theorem warmCopy_spec (h : Heap) (ps : List Nat) :
    HeapFrame h (warmCopy h ps).1 ∧ (∀ x ∈ (warmCopy h ps).2, h.length ≤ x)
    ∧ (warmCopy h ps).2.length = ps.length := by
  have hmain := foldl_preserve
    (fun st : Heap × List Nat => HeapFrame h st.1 ∧ ∀ x ∈ st.2, h.length ≤ x)
    (fun st p =>
      let a := allocVec st.1 (readVec st.1 p)
      (a.1, st.2 ++ [a.2])) ps
    (by
      intro st p _ hst
      have ha := heapFrame_alloc hst.1 (readVec st.1 p)
      refine ⟨ha.1, ?_⟩
      intro x hx
      rcases List.mem_append.mp hx with hx | hx
      · exact hst.2 x hx
      · rw [List.mem_singleton.mp hx]
        exact ha.2) (h, [])
    ⟨heapFrame_refl h, by intro x hx; cases hx⟩
  refine ⟨hmain.1, hmain.2, ?_⟩
  have hlen : ∀ (l : List Nat) (st : Heap × List Nat),
      (l.foldl (fun st p =>
        let a := allocVec st.1 (readVec st.1 p)
        (a.1, st.2 ++ [a.2])) st).2.length = st.2.length + l.length := by
    intro l
    induction l with
    | nil => intro st; simp
    | cons x xs ih =>
      intro st
      rw [List.foldl_cons, ih]
      simp [Nat.add_assoc, Nat.add_comm 1 xs.length]
  have := hlen ps (h, [])
  simpa [warmCopy] using this

/-- Appending one large-enough reference preserves a lower bound on a
reference list. -/
theorem mem_append_singleton_bound {n : Nat} {l : List Nat} (hl : ∀ x ∈ l, n ≤ x)
    {a : Nat} (ha : n ≤ a) : ∀ x ∈ l ++ [a], n ≤ x := by
  intro x hx
  rcases List.mem_append.mp hx with hx | hx
  · exact hl x hx
  · rw [List.mem_singleton.mp hx]
    exact ha

/-- K-Means++ seeding only allocates: the original arrays are preserved and
every chosen centroid reference is fresh. -/
theorem initKMeansPlusPlusH_spec (h : Heap) (embs : List EmbRef) (k : Nat) (rand : List ℚ) :
    HeapFrame h (initKMeansPlusPlusH h embs k rand).1
    ∧ ∀ x ∈ (initKMeansPlusPlusH h embs k rand).2.1, h.length ≤ x := by
  have hmain := foldl_preserve
    (fun st : Heap × List Nat × List ℚ => HeapFrame h st.1 ∧ ∀ x ∈ st.2.1, h.length ≤ x)
    (fun st _ =>
      let h1 := st.1
      let crefs := st.2.1
      let dists := embs.map (fun e => minDistToCentsH h1 crefs (readVec h1 e.ref))
      let distsSq := dists.map (fun d => d * d)
      let s := distsSq.sum
      let pr := nextRand st.2.2
      let target := pr.1 * s
      let idx := (cumFind distsSq 0 target 0).getD (distsSq.length - 1)
      let a := allocVec h1 (readVec h1 ((embs.getD idx ⟨"", 0⟩).ref))
      (a.1, crefs ++ [a.2], pr.2)) (List.range (k - 1))
    (by
      intro st c _ hst
      exact ⟨(heapFrame_alloc hst.1 _).1,
        mem_append_singleton_bound hst.2 (heapFrame_alloc hst.1 _).2⟩)
    ((allocVec h (readVec h ((embs.getD (ratFloorIdx (nextRand rand).1 embs.length) ⟨"", 0⟩).ref))).1,
     [(allocVec h (readVec h ((embs.getD (ratFloorIdx (nextRand rand).1 embs.length) ⟨"", 0⟩).ref))).2],
     (nextRand rand).2)
    ⟨(heapFrame_alloc (heapFrame_refl h) _).1, by
      intro x hx
      rw [List.mem_singleton.mp hx]
      exact (heapFrame_alloc (heapFrame_refl h) _).2⟩
  exact hmain

/-- K-Means++ seeding returns `1 + (k - 1)` centroid references. -/
theorem initKMeansPlusPlusH_length (h : Heap) (embs : List EmbRef) (k : Nat) (rand : List ℚ) :
    (initKMeansPlusPlusH h embs k rand).2.1.length = k - 1 + 1 := by
  have := foldl_mid_length_add
    (fun (st : Heap × List Nat × List ℚ) (_ : Nat) =>
      let h1 := st.1
      let crefs := st.2.1
      let dists := embs.map (fun e => minDistToCentsH h1 crefs (readVec h1 e.ref))
      let distsSq := dists.map (fun d => d * d)
      let s := distsSq.sum
      let pr := nextRand st.2.2
      let target := pr.1 * s
      let idx := (cumFind distsSq 0 target 0).getD (distsSq.length - 1)
      let a := allocVec h1 (readVec h1 ((embs.getD idx ⟨"", 0⟩).ref))
      (a.1, crefs ++ [a.2], pr.2))
    (by intro st x; simp) (List.range (k - 1))
  have h2 := this
    ((allocVec h (readVec h ((embs.getD (ratFloorIdx (nextRand rand).1 embs.length) ⟨"", 0⟩).ref))).1,
     [(allocVec h (readVec h ((embs.getD (ratFloorIdx (nextRand rand).1 embs.length) ⟨"", 0⟩).ref))).2],
     (nextRand rand).2)
  simpa [initKMeansPlusPlusH, Nat.add_comm] using h2

/-- The centroid update writes only behind the (fresh) centroid references
and the orphan re-seed only allocates: arrays of the original heap are
preserved, and the centroid references stay fresh. -/
theorem updateCentroidsH_spec (h0 : Heap) (embs : List EmbRef) (k : Nat) (asg : List Int)
    (h : Heap) (crefs : List Nat) (rand : List ℚ)
    (hf : HeapFrame h0 h) (hcr : ∀ x ∈ crefs, h0.length ≤ x) (hk : k ≤ crefs.length) :
    HeapFrame h0 (updateCentroidsH embs k asg h crefs rand).1
    ∧ (∀ x ∈ (updateCentroidsH embs k asg h crefs rand).2.1, h0.length ≤ x)
    ∧ (updateCentroidsH embs k asg h crefs rand).2.1.length = crefs.length := by
  exact foldl_preserve
    (fun st : Heap × List Nat × List ℚ =>
      HeapFrame h0 st.1 ∧ (∀ x ∈ st.2.1, h0.length ≤ x) ∧ st.2.1.length = crefs.length)
    (fun st (c : Nat) =>
      let h1 := st.1
      let cr := st.2.1
      let cnt := asg.countP (fun a => decide (a = (c : Int)))
      if 0 < cnt then
        let mean := (List.range 512).map (fun j =>
          (((asg.zip embs).filter (fun p => decide (p.1 = (c : Int)))).map
            (fun p => (readVec h1 p.2.ref).getD j 0)).sum / (cnt : ℚ))
        (writeVec h1 (cr.getD c 0) mean, cr, st.2.2)
      else
        let pr := nextRand st.2.2
        let idx := ratFloorIdx pr.1 embs.length
        let a := allocVec h1 (readVec h1 ((embs.getD idx ⟨"", 0⟩).ref))
        (a.1, cr.set c a.2, pr.2)) (List.range k)
    (by
      intro st c hc hst
      have hck : c < k := List.mem_range.mp hc
      have hlt : c < st.2.1.length := by rw [hst.2.2]; omega
      have hmem : st.2.1.getD c 0 ∈ st.2.1 := by
        rw [List.getD_eq_getElem _ _ hlt]
        exact List.getElem_mem _
      dsimp only
      split
      · exact ⟨heapFrame_write hst.1 _ _ (hst.2.1 _ hmem), hst.2.1, hst.2.2⟩
      · refine ⟨(heapFrame_alloc hst.1 _).1, ?_, ?_⟩
        · intro x hx
          rcases List.mem_or_eq_of_mem_set hx with hx | hx
          · exact hst.2.1 x hx
          · rw [hx]
            exact (heapFrame_alloc hst.1 _).2
        · rw [List.length_set]
          exact hst.2.2)
    (h, crefs, rand) ⟨hf, hcr, rfl⟩

/-- Lloyd's loop preserves every array of the original heap and keeps the
centroid references fresh. -/
theorem lloydLoopH_spec (embs : List EmbRef) (k : Nat) :
    ∀ (fuel : Nat) (h0 h : Heap) (crefs : List Nat) (asg : List Int) (rand : List ℚ),
      HeapFrame h0 h → (∀ x ∈ crefs, h0.length ≤ x) → k ≤ crefs.length →
      HeapFrame h0 (lloydLoopH embs k fuel h crefs asg rand).1
      ∧ (∀ x ∈ (lloydLoopH embs k fuel h crefs asg rand).2.1, h0.length ≤ x)
      ∧ k ≤ (lloydLoopH embs k fuel h crefs asg rand).2.1.length := by
  intro fuel
  induction fuel with
  | zero =>
    intro h0 h crefs asg rand hf hcr hk
    exact ⟨hf, hcr, hk⟩
  | succ f ih =>
    intro h0 h crefs asg rand hf hcr hk
    simp only [lloydLoopH]
    split
    · exact ⟨hf, hcr, hk⟩
    · have hu := updateCentroidsH_spec h0 embs k
        (embs.map (fun e => bestClusterH h k crefs (readVec h e.ref))) h crefs rand hf hcr hk
      exact ih h0 _ _ _ _ hu.1 hu.2.1 (by rw [hu.2.2]; exact hk)

/-- `kMeans` preserves every array that existed in the heap before the
call, for warm and cold starts alike. -/
theorem kMeansH_spec (h : Heap) (embs : List EmbRef) (k : Nat) (prev : Option (List Nat))
    (rand : List ℚ) : HeapFrame h (kMeansH h embs k prev rand).1 := by
  unfold kMeansH
  cases prev with
  | none =>
    have hi := initKMeansPlusPlusH_spec h embs k rand
    have hl := initKMeansPlusPlusH_length h embs k rand
    exact (lloydLoopH_spec embs k 20 h _ _ _ _ hi.1 hi.2 (by rw [hl]; omega)).1
  | some pcs =>
    dsimp only
    split
    · rename_i hpk
      have hw := warmCopy_spec h pcs
      exact (lloydLoopH_spec embs k 20 h _ _ _ _ hw.1 hw.2.1
        (by rw [hw.2.2, hpk])).1
    · have hi := initKMeansPlusPlusH_spec h embs k rand
      have hl := initKMeansPlusPlusH_length h embs k rand
      exact (lloydLoopH_spec embs k 20 h _ _ _ _ hi.1 hi.2 (by rw [hl]; omega)).1

/-- C10: a call to `updateClusters` with a non-null `previousCentroids`
argument leaves every vector of `previousCentroids` unchanged: the warm
start deep-copies the centroids and all centroid writes and orphan re-seeds
touch only the copies. -/
theorem C10_previous_centroids_immutable (h : Heap) (embs : List EmbRef) (k : Nat)
    (thr : ℚ) (ps : List Nat) (rand : List ℚ) :
    ∀ r ∈ ps, r < h.length →
      readVec (updateClustersH h embs k thr (some ps) rand).1 r = readVec h r := by
  intro r _ hr
  unfold updateClustersH
  split
  · rfl
  · exact (kMeansH_spec h embs _ (some ps) rand).2 r hr

/-- C10 witness: the previous centroid vector reads back unchanged after a
concrete warm-start call. -/
theorem C10_witness :
    readVec (updateClustersH heapEx embRefsEx 1 (3/20) (some [0]) [1/2, 1/2, 1/2]).1 0
      = readVec heapEx 0 :=
  C10_previous_centroids_immutable heapEx embRefsEx 1 (3/20) [0] [1/2, 1/2, 1/2] 0
    (by decide) (by decide)

end ImageClustering
